import Mathlib

/-!
Verification development for the Elsevier XML reader module
(`chemdataextractor/reader/elsevier.py`).

Strings are modelled as `List Char`.  Python `None`-able strings are
`Option (List Char)` (`none` = Python `None`); Python truthiness of such a
value is `optTruthy` (`None` and `''` are falsy).  Code that can raise is
modelled in `Except PyErr`.
-/

/-- Python exception kinds that the modelled code can raise. -/
inductive PyErr where
  | readerError
  | indexError
  | attributeError
  | typeError
  | valueError
  | keyError
deriving DecidableEq

instance {ε α : Type} [DecidableEq ε] [DecidableEq α] : DecidableEq (Except ε α) := fun x y =>
  match x, y with
  | .ok a, .ok b =>
    if h : a = b then isTrue (by rw [h]) else isFalse (fun hh => h (Except.ok.inj hh))
  | .error a, .error b =>
    if h : a = b then isTrue (by rw [h]) else isFalse (fun hh => h (Except.error.inj hh))
  | .ok _, .error _ => isFalse (fun hh => Except.noConfusion hh)
  | .error _, .ok _ => isFalse (fun hh => Except.noConfusion hh)

/-- Truthiness of an optional string: Python `None` and `''` are falsy. -/
def optTruthy (s : Option (List Char)) : Bool :=
  match s with
  | none => false
  | some [] => false
  | some (_ :: _) => true

/-- Python `needle in hay` substring containment test. -/
def pyContains (needle : List Char) : List Char → Bool
  | [] => needle.isPrefixOf []
  | c :: rest => needle.isPrefixOf (c :: rest) || pyContains needle rest

/-- `s.endswith(' ')`. -/
def endsWithSpace (s : List Char) : Bool :=
  match s.getLast? with
  | some c => c = ' '
  | none => false

/-- `s.startswith(' ')`. -/
def startsWithSpace (s : List Char) : Bool :=
  match s with
  | ' ' :: _ => true
  | _ => false

/-- `target + '' + add` when `target` ends with a space, else `target + ' ' + add`
(the merge used for leading text in `fix_elsevier_xml_whitespace`). -/
def joinEnd (target add : List Char) : List Char :=
  if endsWithSpace target then target ++ add else target ++ ' ' :: add

/-- `target + '' + add` when `add` starts with a space, else `target + ' ' + add`
(the merge used for tails in `fix_elsevier_xml_whitespace`). -/
def joinStart (target add : List Char) : List Char :=
  if startsWithSpace add then target ++ add else target ++ ' ' :: add

/-- Python `s.split(sep)` for a single-character separator. -/
def splitCharAux (sep : Char) (acc : List Char) : List Char → List (List Char)
  | [] => [acc]
  | c :: rest => if c = sep then acc :: splitCharAux sep [] rest else splitCharAux sep (acc ++ [c]) rest

/-- Python `s.split(sep)` for a single-character separator. -/
def splitChar (sep : Char) (s : List Char) : List (List Char) :=
  splitCharAux sep [] s

/-- Python `s.split('col')`: cut at every non-overlapping occurrence of `"col"`,
scanning left to right. -/
def splitColAux : List Char → List Char → List (List Char)
  | acc, 'c' :: 'o' :: 'l' :: rest => acc :: splitColAux [] rest
  | acc, c :: rest => splitColAux (acc ++ [c]) rest
  | acc, [] => [acc]

/-- Python `s.split('col')`. -/
def splitCol (s : List Char) : List (List Char) :=
  splitColAux [] s

/-- Value of a decimal digit string (left-to-right accumulation). -/
def digitsToNat (s : List Char) : Nat :=
  s.foldl (fun a c => 10 * a + (c.toNat - 48)) 0

/-- Python `int(s)` on a nonempty all-digit string, `None` otherwise. -/
def pyDigits? (s : List Char) : Option Nat :=
  if s ≠ [] ∧ s.all Char.isDigit then some (digitsToNat s) else none

/-- Python `int(s)`: an optional sign followed by decimal digits
(whitespace/underscore forms are not modelled; the code only meets plain
numerals).  `none` models `ValueError`. -/
def pyInt? (s : List Char) : Option Int :=
  match s with
  | [] => none
  | c :: rest =>
    if c = '-' then (pyDigits? rest).map (fun n => -(n : Int))
    else if c = '+' then (pyDigits? rest).map (fun n => (n : Int))
    else (pyDigits? (c :: rest)).map (fun n => (n : Int))

/- ## Schema detection (`ElsevierXmlReader.detect`, elsevier.py lines 160-166) -/

/-- The exact namespace declaration searched for by `detect`. -/
def nsDecl : List Char :=
  ("xmlns=\"http://www.elsevier.com/xml/svapi/article/dtd\"").toList

/-- `'.xml'`. -/
def xmlExt : List Char := ".xml".toList

/-- `ElsevierXmlReader.detect`: reject a truthy filename not ending in `.xml`,
else accept exactly when the byte content contains `nsDecl`. -/
def detect (fstring : List Char) (fname : Option (List Char)) : Bool :=
  if optTruthy fname && !(xmlExt.isSuffixOf (fname.getD [])) then false
  else if pyContains nsDecl fstring then true
  else false

/- ## Metadata extraction (`_parse_metadata`, elsevier.py lines 168-200)

The CSS selections are performed by the base reader (not part of this file's
source); a selector's result is modelled as the list of the matched nodes'
texts (a node text may be Python `None`). -/

/-- Selector results fed to `_parse_metadata`, one list per CSS selector. -/
structure MetaSel where
  title : List (Option (List Char))
  authors : List (Option (List Char))
  publisher : List (Option (List Char))
  journal : List (Option (List Char))
  date : List (Option (List Char))
  language : List (Option (List Char))
  volume : List (Option (List Char))
  issue : List (Option (List Char))
  firstpage : List (Option (List Char))
  lastpage : List (Option (List Char))
  doi : List (Option (List Char))
  pii : List (Option (List Char))
  pdf : List (Option (List Char))
  html : List (Option (List Char))
deriving DecidableEq

/-- The dictionary passed to the `MetaData` constructor. -/
structure MetaD where
  title : Option (List Char)
  authors : Option (List (Option (List Char)))
  publisher : Option (List Char)
  journal : Option (List Char)
  date : Option (List Char)
  language : Option (List Char)
  volume : Option (List Char)
  issue : Option (List Char)
  firstpage : Option (List Char)
  lastpage : Option (List Char)
  doi : Option (List Char)
  pdf_url : Option (List Char)
  html_url : List Char
deriving DecidableEq

/-- `url_prefix` class attribute. -/
def urlPre : List Char := "https://sciencedirect.com/science/article/pii/".toList

/-- `sel[0].text if sel else None`. -/
def firstText (l : List (Option (List Char))) : Option (List Char) :=
  match l with
  | [] => none
  | t :: _ => t

/-- `_parse_metadata` field construction (elsevier.py lines 184-198): each plain
field is `sel[0].text if sel else None`; `_pdf_url` is `url_prefix + pdf[0].text`
or `None`; `_html_url` is `url_prefix + html[0].text`, falling back to
`url_prefix + pii[0].text` (an `IndexError` if `pii` is also empty, a
`TypeError` if the text used is `None`). -/
def parseMetadata (sel : MetaSel) : Except PyErr MetaD := do
  let pdfUrl ← (match sel.pdf with
    | [] => Except.ok none
    | none :: _ => Except.error PyErr.typeError
    | some s :: _ => Except.ok (some (urlPre ++ s)))
  let htmlUrl ← (match sel.html with
    | some s :: _ => Except.ok (urlPre ++ s)
    | none :: _ => Except.error PyErr.typeError
    | [] =>
      match sel.pii with
      | [] => Except.error PyErr.indexError
      | none :: _ => Except.error PyErr.typeError
      | some p :: _ => Except.ok (urlPre ++ p))
  Except.ok
    { title := firstText sel.title
      authors := match sel.authors with | [] => none | l => some l
      publisher := firstText sel.publisher
      journal := firstText sel.journal
      date := firstText sel.date
      language := firstText sel.language
      volume := firstText sel.volume
      issue := firstText sel.issue
      firstpage := firstText sel.firstpage
      lastpage := firstText sel.lastpage
      doi := firstText sel.doi
      pdf_url := pdfUrl
      html_url := htmlUrl }

/- ## Figure extraction (`_parse_figure`, elsevier.py lines 231-251)

A figure-region node is modelled by the selector results the function reads:
the texts of the `xocs|attachment xocs|filename` nodes, the converted caption
candidates, and the `ce|figure ce|link` nodes (their `locator` and `xlink:href`
attributes, `none` when the attribute is absent). -/

/-- Attributes of a `ce:link` node read by `_parse_figure`. -/
structure LinkNode where
  locator : Option (List Char)
  href : Option (List Char)
deriving DecidableEq

/-- The `Figure(caption, url=img_url, id=img_id)` value. -/
structure Fig where
  caption : List Char
  url : List Char
  id : List Char
deriving DecidableEq

/-- `_parse_figure`.  Mirrors the source order of operations: caption, then
`img_id = link[0].attrib['locator'] if link else ''`; the subsequent
`if img_id is not None:` branch is always taken because `img_id` is a `str`,
so with no link `link[0]` (for `pii`) raises `IndexError`, and with no
matching `_lrg` attachment filename `''.text` raises `AttributeError`. -/
def parseFigure (filenames : List (List Char)) (caps : List (List Char))
    (link : List LinkNode) : Except PyErr Fig := do
  let caption := (caps.head?).getD []
  let imgId ← (match link with
    | [] => Except.ok ([] : List Char)
    | l :: _ =>
      match l.locator with
      | none => Except.error PyErr.keyError
      | some v => Except.ok v)
  let candidates := filenames.filter
    (fun fn => pyContains imgId fn && pyContains ("_lrg".toList) fn)
  let hrefv ← (match link with
    | [] => Except.error PyErr.indexError
    | l :: _ =>
      match l.href with
      | none => Except.error PyErr.keyError
      | some h => Except.ok h)
  let pii := (((splitChar '/' hrefv).headD []).drop 4)
  let filenameText ← (match candidates.head? with
    | some fn => Except.ok fn
    | none => Except.error PyErr.attributeError)
  let imgUrl := ("https://ars.els-cdn.com/content/image/1-s2.0-").toList
      ++ pii ++ '-' :: filenameText
  Except.ok { caption := caption, url := imgUrl, id := imgId }

/- ## XML tree model and `parse` failure skeleton (elsevier.py lines 253-257) -/

/-- A markup tree node: tag, text, tail, ordered children.  Only proper
elements are modelled (an lxml comment/PI tag is not a string; the splice
pass's `isinstance(el.tag, six.string_types)` is `True` on every node of this
model). -/
inductive XElem where
  | mk (tag : List Char) (text : Option (List Char)) (tail : Option (List Char))
      (children : List XElem)

def XElem.tag : XElem → List Char
  | .mk t _ _ _ => t

def XElem.text : XElem → Option (List Char)
  | .mk _ tx _ _ => tx

def XElem.tail : XElem → Option (List Char)
  | .mk _ _ tl _ => tl

def XElem.children : XElem → List XElem
  | .mk _ _ _ k => k

/-- Replace the tail of a node. -/
def XElem.withTail : XElem → Option (List Char) → XElem
  | .mk t tx _ k, tl => .mk t tx tl k

mutual
/-- Modelled from the spec: the base reader's CSS-to-namespace-aware element
selector (`self._css`), which is not part of this module's source; per the
spec it returns all elements of the tree whose (namespaced) tag matches, in
document order. -/
def cssSelect (tag : List Char) : XElem → List XElem
  | .mk t tx tl kids =>
    (if t = tag then [XElem.mk t tx tl kids] else []) ++ cssSelectList tag kids

def cssSelectList (tag : List Char) : List XElem → List XElem
  | [] => []
  | x :: xs => cssSelect tag x ++ cssSelectList tag xs
end

/-- The `root_css` tag, `'default|full-text-retrieval-response'`. -/
def rootTag : List Char := "default|full-text-retrieval-response".toList

/-- The failure skeleton of `parse` (elsevier.py lines 253-257): the
tree-building collaborator's result is given as `none` (Python `None`, the
"could not parse" signal) or the built tree; `parse` raises `ReaderError`
exactly on `none`, then evaluates `self._css(self.root_css, root)[0]`, which
raises `IndexError` when no root element matches.  No other statement of the
module raises explicitly. -/
def parseRoot (treeResult : Option XElem) : Except PyErr XElem :=
  match treeResult with
  | none => Except.error PyErr.readerError
  | some root =>
    match cssSelect rootTag root with
    | [] => Except.error PyErr.indexError
    | r :: _ => Except.ok r

/- ## Whitespace splice pass (`fix_elsevier_xml_whitespace`, elsevier.py
lines 35-75), one loop iteration for the `ce:hsp` node `parent.children[idx]`. -/

/-- Append `add` to the tail of the last node of `kids` (no separator),
as in `last.tail = (last.tail or '') + el.tail`. -/
def setLastTail (kids : List XElem) (add : List Char) : List XElem :=
  match kids.getLast? with
  | none => kids
  | some last => kids.set (kids.length - 1) (last.withTail (some (((last.tail).getD []) ++ add)))

/-- One iteration of the `fix_elsevier_xml_whitespace` loop body for the node
`el = parent.children[idx]`:
leading-text merge (lines 44-56), tail merge (lines 58-71), then the splice
`parent[index:index+1] = el[:]` (lines 73-74). -/
def spliceStep (parent : XElem) (idx : Nat) : XElem :=
  match parent with
  | .mk ptag ptext ptail pkids =>
    match pkids[idx]? with
    | none => XElem.mk ptag ptext ptail pkids
    | some el =>
      let st1 : Option (List Char) × List XElem :=
        if optTruthy el.text then
          if idx = 0 then
            (if optTruthy ptext then some (joinEnd (ptext.getD []) ((el.text).getD []))
             else ptext, pkids)
          else
            match pkids[idx - 1]? with
            | none => (ptext, pkids)
            | some prev =>
              if optTruthy prev.tail then
                (ptext, pkids.set (idx - 1)
                  (prev.withTail (some (joinEnd ((prev.tail).getD []) ((el.text).getD [])))))
              else (ptext, pkids)
        else (ptext, pkids)
      let ptext1 := st1.1
      let pkids1 := st1.2
      let st2 : Option (List Char) × List XElem × List XElem :=
        if optTruthy el.tail then
          if !el.children.isEmpty then
            (ptext1, pkids1, setLastTail el.children ((el.tail).getD []))
          else if idx = 0 then
            (some (joinStart (ptext1.getD []) ((el.tail).getD [])), pkids1, el.children)
          else
            match pkids1[idx - 1]? with
            | none => (ptext1, pkids1, el.children)
            | some prev =>
              (ptext1, pkids1.set (idx - 1)
                (prev.withTail (some (joinStart ((prev.tail).getD []) ((el.tail).getD [])))),
               el.children)
        else (ptext1, pkids1, el.children)
      XElem.mk ptag st2.1 ptail ((st2.2.1.take idx) ++ st2.2.2 ++ (st2.2.1.drop (idx + 1)))

/- ## Table reconstruction (`_parse_table_rows`, elsevier.py lines 202-229)

A table-region node is modelled by its physical rows (header rows followed by
body rows, in document order), each row the list of its `ce|entry` cells.  A
source cell carries its converted content (the text of the `Cell` element
produced by `_parse_text`) and the raw `namest`/`nameend`/`morerows`
attribute strings (`none` when absent). -/

/-- A source table cell. -/
structure SrcCell where
  text : List Char
  namest : Option (List Char)
  nameend : Option (List Char)
  morerows : Option (List Char)
deriving DecidableEq

/-- A converted `Cell` object stored in the grid: `src r k t` is the object
built from the `k`-th cell of physical row `r` (content `t`); `pad` is a
padding `Cell('')`.  Distinguishing source position models Python object
identity (one fresh `Cell` per source `td`). -/
inductive Cll where
  | src (rid : Nat) (cid : Nat) (text : List Char)
  | pad
deriving DecidableEq

/-- Modelled from the spec: truthiness of a `Cell` (class `Cell` is an
external collaborator, not in this module's source); per the spec a cell is
"empty" exactly when its content is empty, so `any(r)` keeps a row exactly
when some cell has nonempty content. -/
def cllTruthy : Cll → Bool
  | .src _ _ [] => false
  | .src _ _ (_ :: _) => true
  | .pad => false

/-- Python `any(r)` over a row of `Cell`s. -/
def anyTruthy (r : List Cll) : Bool :=
  r.any cllTruthy

/-- `int([i for i in td.get('namest', '1').split('col') if i][0])`:
default `'1'`, split on `'col'`, drop empty pieces, `int` of the first piece
(`IndexError` when no piece remains, `ValueError` on a non-numeral). -/
def colAttrVal (a : Option (List Char)) : Except PyErr Int :=
  match (splitCol (a.getD ['1'])).filter (fun s => !s.isEmpty) with
  | [] => Except.error PyErr.indexError
  | s :: _ =>
    match pyInt? s with
    | none => Except.error PyErr.valueError
    | some n => Except.ok n

/-- `int(td.get('morerows', '0'))`. -/
def moreRowsVal (a : Option (List Char)) : Except PyErr Int :=
  match pyInt? (a.getD ['0']) with
  | none => Except.error PyErr.valueError
  | some n => Except.ok n

/-- A cell after attribute parsing: its converted `Cell` object, its
column span `(nameend - namest) + 1` and row span `morerows + 1` (both
clamped at 0 exactly as `range(...)` does on a negative argument). -/
structure PCell where
  v : Cll
  colspan : Nat
  rowspan : Nat
deriving DecidableEq

/-- Parse the span attributes of the cells of one physical row `rid`,
`j` being the index of the first cell; source order `namest`, `nameend`,
`morerows` per cell, cells left to right. -/
def parseCellsRow (rid : Nat) : Nat → List SrcCell → Except PyErr (List PCell)
  | _, [] => Except.ok []
  | j, c :: rest => do
    let a ← colAttrVal c.namest
    let b ← colAttrVal c.nameend
    let m ← moreRowsVal c.morerows
    let rest' ← parseCellsRow rid (j + 1) rest
    Except.ok ({ v := Cll.src rid j c.text
                 colspan := ((b - a) + 1).toNat
                 rowspan := (m + 1).toNat } :: rest')

/-- Parse the span attributes of every cell, rows top to bottom (`r` is the
index of the first row).  The first attribute error matches the first
exception the source loop would raise. -/
def parseCells : Nat → List (List SrcCell) → Except PyErr (List (List PCell))
  | _, [] => Except.ok []
  | r, row :: rest => do
    let prow ← parseCellsRow r 0 row
    let rest' ← parseCells (r + 1) rest
    Except.ok (prow :: rest')

/- The grid `hdict` is a Python dict of dicts with int keys; it is modelled
by association lists (first-match lookup; assignment to an existing key
replaces in place, a new key is appended — Python dict semantics). -/

/-- One grid row: column index ↦ `Cell`. -/
abbrev Row' : Type := List (Nat × Cll)

/-- The grid: row index ↦ row dict. -/
abbrev Grid : Type := List (Nat × Row')

/-- Association-list lookup, `d[k]` / `k in d`. -/
def alGet {β : Type} : List (Nat × β) → Nat → Option β
  | [], _ => none
  | p :: rest, k => if p.1 = k then some p.2 else alGet rest k

/-- Association-list assignment `d[k] = v`: replace the first entry with key
`k`, else append. -/
def alInsert {β : Type} : List (Nat × β) → Nat → β → List (Nat × β)
  | [], k, v => [(k, v)]
  | p :: rest, k, v => if p.1 = k then (k, v) :: rest else p :: alInsert rest k v

/-- `if not rownum in hdict: hdict[rownum] = {}`. -/
def ensureRow (g : Grid) (r : Nat) : Grid :=
  match alGet g r with
  | some _ => g
  | none => g ++ [(r, ([] : Row'))]

/-- The row dict of row `r` (empty when absent). -/
def rowOf (g : Grid) (r : Nat) : Row' :=
  (alGet g r).getD []

/-- `hdict[rownum][colnum] = v` (row `r` is present when this is called). -/
def setCell (g : Grid) (r c : Nat) (v : Cll) : Grid :=
  g.map (fun p => if p.1 = r then (p.1, alInsert p.2 c v) else p)

/-- The grid entry at `(r, c)`. -/
def gridGet (g : Grid) (r c : Nat) : Option Cll :=
  alGet (rowOf g r) c

/-- `while colnum in keys: colnum += 1` — first key-free column at or after
`c`.  The loop runs at most `keys.length` times (each pass erases one key),
so `keys.length + 1` fuel makes the recursion total and structural. -/
def nextFreeAux : Nat → List Nat → Nat → Nat
  | 0, _, c => c
  | fuel + 1, keys, c => if c ∈ keys then nextFreeAux fuel (keys.erase c) (c + 1) else c

/-- `while colnum in hdict[rownum]: colnum += 1`. -/
def nextFreeRow (w : Row') (c : Nat) : Nat :=
  nextFreeAux ((w.map Prod.fst).length + 1) (w.map Prod.fst) c

/-- The inner `for j in range(rowspan)` loop for one column unit: place `v`
at the next free column of rows `rownum, rownum+1, ...` (`cnt` rows in all),
the column cursor being shared across the iterations. -/
def placeDown (v : Cll) : Nat → Nat → Grid × Nat → Grid × Nat
  | _, 0, st => st
  | rownum, cnt + 1, (g, colnum) =>
    let g1 := ensureRow g rownum
    let c := nextFreeRow (rowOf g1 rownum) colnum
    placeDown v (rownum + 1) cnt (setCell g1 rownum c v, c)

/-- The outer `for i in range(colspan)` loop: run the row-span unit, then
`colnum += 1`, `cs` times. -/
def placeUnits (row : Nat) (v : Cll) (rs : Nat) : Nat → Grid × Nat → Grid × Nat
  | 0, st => st
  | cs + 1, st =>
    let st2 := placeDown v row rs st
    placeUnits row v rs cs (st2.1, st2.2 + 1)

/-- Process one parsed cell of physical row `row`. -/
def placeCell (row : Nat) (pc : PCell) (st : Grid × Nat) : Grid × Nat :=
  placeUnits row pc.v pc.rowspan pc.colspan st

/-- Process the cells of one physical row, left to right. -/
def placeCells (row : Nat) : List PCell → Grid × Nat → Grid × Nat
  | [], st => st
  | pc :: rest, st => placeCells row rest (placeCell row pc st)

/-- Process one physical row (`colnum = 0` at row start). -/
def rowStep (row : Nat) (cells : List PCell) (g : Grid) : Grid :=
  (placeCells row cells (g, 0)).1

/-- `for row, tr in enumerate(els): ...` starting at row index `r`. -/
def buildGridAux : Nat → List (List PCell) → Grid → Grid
  | _, [], g => g
  | r, cells :: rest, g => buildGridAux (r + 1) rest (rowStep r cells g)

/-- Build `hdict` from the parsed cells. -/
def buildGrid (pels : List (List PCell)) : Grid :=
  buildGridAux 0 pels []

/-- `sorted(d)`: the keys in ascending order. -/
def sortedKeys {β : Type} (l : List (Nat × β)) : List Nat :=
  List.insertionSort (fun a b => a ≤ b) (l.map Prod.fst)

/-- `[hdict[row][col] for col in sorted(hdict[row])]`. -/
def rowCells (w : Row') : List Cll :=
  (sortedKeys w).filterMap (alGet w)

/-- `rows` after the extraction loop (elsevier.py lines 221-225). -/
def gridRows (g : Grid) : List (List Cll) :=
  (sortedKeys g).map (fun r => rowCells (rowOf g r))

/-- `len(max(rows, key=len))` (0 on an empty list; the source only evaluates
it when `rows` is nonempty). -/
def maxLenOf (l : List (List Cll)) : Nat :=
  l.foldr (fun r m => max r.length m) 0

/-- The padding loop `for r in rows: r.extend([Cell('')] * (len(max(rows,
key=len)) - len(r)))`, which mutates `rows` in place while re-evaluating the
maximum: `acc` holds the rows already padded. -/
def padStep : List (List Cll) → List (List Cll) → List (List Cll)
  | acc, [] => acc
  | acc, r :: rest =>
    let m := maxLenOf (acc ++ r :: rest)
    padStep (acc ++ [r ++ List.replicate (m - r.length) Cll.pad]) rest

/-- The whole padding pass. -/
def padAll (rows : List (List Cll)) : List (List Cll) :=
  padStep [] rows

/-- `_parse_table_rows` on the physical rows of one table. -/
def parseTableRowsEls (els : List (List SrcCell)) : Except PyErr (List (List Cll)) :=
  match parseCells 0 els with
  | Except.error e => Except.error e
  | Except.ok pels =>
    Except.ok ((padAll (gridRows (buildGrid pels))).filter anyTruthy)

/- ## Specification values used by the theorems -/

/-- The raw row/cell layout of a table: source cell `k` of physical row `r`
at output position `(r, k)`. -/
def rawRow (rid : Nat) : Nat → List SrcCell → List Cll
  | _, [] => []
  | k, c :: rest => Cll.src rid k c.text :: rawRow rid (k + 1) rest

/-- The raw layout of all rows. -/
def rawLayout : Nat → List (List SrcCell) → List (List Cll)
  | _, [] => []
  | r, row :: rest => rawRow r 0 row :: rawLayout (r + 1) rest

/-- The parsed form of a row without span attributes: every cell spans
`1 × 1`. -/
def noSpanRow (rid : Nat) : Nat → List SrcCell → List PCell
  | _, [] => []
  | j, c :: rest =>
    { v := Cll.src rid j c.text, colspan := 1, rowspan := 1 } :: noSpanRow rid (j + 1) rest

/-- The parsed form of a table without span attributes. -/
def noSpanCells : Nat → List (List SrcCell) → List (List PCell)
  | _, [] => []
  | r, row :: rest => noSpanRow r 0 row :: noSpanCells (r + 1) rest

/-- A row dict holding the given cells at consecutive columns starting at
`c`, in insertion order. -/
def seqRow : Nat → List PCell → Row'
  | _, [] => []
  | c, p :: rest => (c, p.v) :: seqRow (c + 1) rest

/-- A grid holding the given rows at consecutive row indices starting at
`r`, each row dense from column 0. -/
def seqGrid : Nat → List (List PCell) → Grid
  | _, [] => []
  | r, cells :: rest => (r, seqRow 0 cells) :: seqGrid (r + 1) rest

/-- Column-occupation nesting below processing row `r`: every column occupied
in a row strictly below `r` is also occupied in the row above it.  This is
the invariant the while-loop column search maintains while rows are processed
top to bottom. -/
def Nested (g : Grid) (r : Nat) : Prop :=
  ∀ k c, (gridGet g (r + k + 1) c).isSome → (gridGet g (r + k) c).isSome

/- ## Helper lemmas -/

theorem optTruthy_some_of_ne {u : List Char} (h : u ≠ []) : optTruthy (some u) = true := by
  cases u with
  | nil => exact absurd rfl h
  | cons a l => rfl

theorem splitColAux_all_digits :
    ∀ acc s, (∀ c ∈ s, c.isDigit = true) → splitColAux acc s = [acc ++ s] := by
  intro acc s
  induction acc, s using splitColAux.induct with
  | case1 acc rest ih =>
    intro h
    exact absurd (h 'c' (List.mem_cons_self _ _)) (by decide)
  | case2 acc c rest hne ih =>
    intro h
    have heq : splitColAux acc (c :: rest) = splitColAux (acc ++ [c]) rest := by
      simp only [splitColAux]
    rw [heq, ih (fun x hx => h x (List.mem_cons_of_mem c hx))]
    simp
  | case3 acc => intro h; simp [splitColAux]

theorem pyInt?_digits (s : List Char) (hne : s ≠ []) (hdig : ∀ c ∈ s, c.isDigit = true) :
    pyInt? s = some (digitsToNat s : Int) := by
  cases s with
  | nil => exact absurd rfl hne
  | cons c rest =>
    have hc : c.isDigit = true := hdig c (List.mem_cons_self c rest)
    have h1 : ¬(c = '-') := by rintro rfl; exact absurd hc (by decide)
    have h2 : ¬(c = '+') := by rintro rfl; exact absurd hc (by decide)
    have hall : (c :: rest).all Char.isDigit = true := List.all_eq_true.mpr hdig
    simp [pyInt?, h1, h2, pyDigits?, hall]

theorem colAttrVal_digits (s : List Char) (hne : s ≠ []) (hdig : ∀ c ∈ s, c.isDigit = true) :
    colAttrVal (some s) = Except.ok (digitsToNat s : Int) := by
  have hsplit : splitCol s = [s] := by
    have := splitColAux_all_digits [] s hdig
    simpa [splitCol] using this
  have hemp : s.isEmpty = false := by cases s with
    | nil => exact absurd rfl hne
    | cons a l => rfl
  simp [colAttrVal, hsplit, hemp, pyInt?_digits s hne hdig]

/- ## C10 -/

/-- C10: parsing a `namest`/`nameend` attribute splits out any literal
`'col'` and converts the remainder with `int`, so a value of the form
`'colN'` or `'N'` (`N` a decimal numeral) parses to `N`, and an absent
attribute defaults to column 1. -/
theorem C10_col_attribute_parse (s : List Char) (hne : s ≠ [])
    (hdig : ∀ c ∈ s, c.isDigit = true) :
    colAttrVal (some ('c' :: 'o' :: 'l' :: s)) = Except.ok (digitsToNat s : Int) ∧
    colAttrVal (some s) = Except.ok (digitsToNat s : Int) ∧
    colAttrVal none = Except.ok 1 := by
  refine ⟨?_, colAttrVal_digits s hne hdig, rfl⟩
  have hsplit : splitCol ('c' :: 'o' :: 'l' :: s) = [[], s] := by
    rw [splitCol, splitColAux, splitColAux_all_digits [] s hdig]
    simp
  have hemp : s.isEmpty = false := by cases s with
    | nil => exact absurd rfl hne
    | cons a l => rfl
  simp [colAttrVal, hsplit, hemp, pyInt?_digits s hne hdig]

/-- Witness for C10 at the concrete attribute values `'col42'` and `'42'`. -/
theorem C10_col_attribute_parse_witness :
    colAttrVal (some ('c' :: 'o' :: 'l' :: ['4', '2'])) = Except.ok 42 ∧
    colAttrVal (some ['4', '2']) = Except.ok 42 ∧
    colAttrVal none = Except.ok 1 :=
  C10_col_attribute_parse ['4', '2'] (by decide) (by decide)

/- ## C9 -/

/-- C9 counterexample: with an empty (hence Python-falsy) filename, which does
not end in `'.xml'`, `detect` still returns `True` on matching content, because
`if fname and not fname.endswith('.xml')` skips the extension check for a falsy
filename. -/
theorem C9_detect_counterexample :
    detect nsDecl (some []) = true ∧ xmlExt.isSuffixOf ([] : List Char) = false :=
  ⟨rfl, rfl⟩

/-- C9 amended: `detect` returns true only when the byte content contains the
exact Elsevier namespace declaration string (no partial matching), and returns
false for any nonempty filename not ending in `'.xml'` regardless of content
(an empty filename is treated as absent). -/
theorem C9_detect_amended :
    (∀ (fs : List Char) (fn : Option (List Char)),
      detect fs fn = true → pyContains nsDecl fs = true) ∧
    (∀ (fs f : List Char), f ≠ [] → xmlExt.isSuffixOf f = false →
      detect fs (some f) = false) := by
  constructor
  · intro fs fn h
    unfold detect at h
    split at h
    · simp at h
    · split at h
      · assumption
      · simp at h
  · intro fs f hne hsuf
    simp [detect, optTruthy_some_of_ne hne, hsuf]

/-- Witness for C9 at concrete inputs: content equal to the namespace string
itself, and the non-XML filename `'a.txt'`. -/
theorem C9_detect_amended_witness :
    pyContains nsDecl nsDecl = true ∧ detect nsDecl (some ("a.txt".toList)) = false :=
  ⟨C9_detect_amended.1 nsDecl none rfl,
   C9_detect_amended.2 nsDecl ("a.txt".toList) (by decide) (by decide)⟩

/- ## C1 -/

/-- C1: evaluating `_parse_figure` on a figure with a caption but no
`ce:link` child: `img_id` is set to `''`, which is not `None`, so the branch
meant to be guarded is entered and `link[0]` raises `IndexError` — URL
resolution is not skipped and no Figure is returned. -/
theorem C1_parse_figure_no_link_raises :
    parseFigure [] ["cap".toList] [] = Except.error PyErr.indexError := rfl

/- ## C2 -/

/-- C2 counterexample: on a tree that builds fine but has no
`full-text-retrieval-response` root element, `parse` fails with `IndexError`
(from `self._css(self.root_css, root)[0]`), which is not the reader-error. -/
theorem C2_parse_counterexample :
    parseRoot (some (XElem.mk "other".toList none none [])) = Except.error PyErr.indexError ∧
    (Except.error PyErr.indexError : Except PyErr XElem) ≠ Except.error PyErr.readerError := by
  refine ⟨?_, ?_⟩
  · rfl
  · intro h
    exact PyErr.noConfusion (Except.error.inj h)

/-- C2 amended: `parse` raises the reader-error exactly when the input bytes
cannot be built into a tree; when the tree is built but the expected document
root element is absent it fails with an index error instead.  (The reader-error
raise is the module's only explicit `raise` statement.) -/
theorem C2_parse_error_kinds :
    (∀ tr : Option XElem, parseRoot tr = Except.error PyErr.readerError ↔ tr = none) ∧
    (∀ t : XElem, parseRoot (some t) = Except.error PyErr.indexError ↔
      cssSelect rootTag t = []) := by
  constructor
  · intro tr
    cases tr with
    | none => simp [parseRoot]
    | some t =>
      simp only [parseRoot]
      cases h : cssSelect rootTag t with
      | nil => simp
      | cons a l => simp
  · intro t
    simp only [parseRoot]
    cases h : cssSelect rootTag t with
    | nil => simp
    | cons a l => simp

/- ## C6 -/

/-- C6: two evaluations showing the splice pass dropping a node's leading
text.  First: no previous sibling and `parent.text` is `None` — the
`if parent.text:` guard skips the append and the text `'x'` is lost.
Second: a previous sibling exists but its tail is `None` — the
`if previous.tail:` guard likewise drops `'x'`. -/
theorem C6_splice_text_dropped :
    spliceStep (XElem.mk "p".toList none none
        [XElem.mk "hsp".toList (some "x".toList) none []]) 0
      = XElem.mk "p".toList none none [] ∧
    spliceStep (XElem.mk "p".toList none none
        [XElem.mk "a".toList (some "y".toList) none [],
         XElem.mk "hsp".toList (some "x".toList) none []]) 1
      = XElem.mk "p".toList none none
        [XElem.mk "a".toList (some "y".toList) none []] :=
  ⟨rfl, rfl⟩

/- ## C7 -/

/-- C7 counterexample: an entirely empty horizontal-space node (no text, no
tail — the common serialized form `<ce:hsp/>`) between two text-bearing
siblings is spliced out without contributing any space: the previous tail
stays `'foo'` and the next sibling's text stays `'y'` — zero spaces at the
junction, not one. -/
theorem C7_splice_counterexample :
    spliceStep (XElem.mk "p".toList (some "t1".toList) none
        [XElem.mk "a".toList (some "x".toList) (some "foo".toList) [],
         XElem.mk "hsp".toList none none [],
         XElem.mk "b".toList (some "y".toList) none []]) 1
      = XElem.mk "p".toList (some "t1".toList) none
        [XElem.mk "a".toList (some "x".toList) (some "foo".toList) [],
         XElem.mk "b".toList (some "y".toList) none []] := rfl

/-- C7 amended: for a horizontal-space node between two siblings whose own
leading text is nonempty without a leading space, with no tail and no
children, and whose previous sibling's tail is nonempty without a trailing
space, the splice yields `previous tail ++ one space ++ node text` — exactly
one space at the junction — and removes the node. -/
theorem C7_splice_one_space (parent : XElem) (idx : Nat) (el prev nxt : XElem)
    (t u : List Char)
    (hidx : 1 ≤ idx)
    (hel : parent.children[idx]? = some el)
    (hprev : parent.children[idx - 1]? = some prev)
    (hnxt : parent.children[idx + 1]? = some nxt)
    (htail : prev.tail = some t) (ht : t ≠ []) (hts : endsWithSpace t = false)
    (htext : el.text = some u) (hu : u ≠ []) (hus : startsWithSpace u = false)
    (heltail : el.tail = none) (hkids : el.children = []) :
    (spliceStep parent idx).children[idx - 1]? =
      some (prev.withTail (some (t ++ ' ' :: u))) ∧
    (spliceStep parent idx).children.length = parent.children.length - 1 := by
  obtain ⟨ptag, ptext, ptail, pkids⟩ := parent
  simp only [XElem.children] at hel hprev hnxt ⊢
  have hlt : idx < pkids.length := (List.getElem?_eq_some.mp hel).1
  have hidx0 : ¬(idx = 0) := by omega
  rw [spliceStep]
  simp only [hel, htext, optTruthy_some_of_ne hu, hidx0, hprev, htail,
    optTruthy_some_of_ne ht, heltail, hkids, if_false, if_true, Option.getD_some]
  simp only [optTruthy, joinEnd, hts, Bool.false_eq_true, if_false, XElem.children,
    List.append_nil, List.nil_append]
  constructor
  · rw [List.getElem?_append_left, List.getElem?_take_of_lt (by omega), List.getElem?_set]
    · simp only [if_pos rfl, List.length_set]
      have hlt1 : idx - 1 < pkids.length := by omega
      simp [hlt1]
    · rw [List.length_take, List.length_set]
      omega
  · simp only [List.length_append, List.length_take, List.length_drop, List.length_set]
    omega

/-- Witness for C7 on a concrete tree: `<a>x</a>foo<hsp>bar</hsp><b>y</b>`
becomes `<a>x</a>foo bar<b>y</b>` — one space inserted at the junction. -/
theorem C7_splice_one_space_witness :
    (spliceStep (XElem.mk "p".toList none none
        [XElem.mk "a".toList (some "x".toList) (some "foo".toList) [],
         XElem.mk "hsp".toList (some "bar".toList) none [],
         XElem.mk "b".toList (some "y".toList) none []]) 1).children[0]? =
      some ((XElem.mk "a".toList (some "x".toList) (some "foo".toList) []).withTail
        (some ("foo".toList ++ ' ' :: "bar".toList))) ∧
    (spliceStep (XElem.mk "p".toList none none
        [XElem.mk "a".toList (some "x".toList) (some "foo".toList) [],
         XElem.mk "hsp".toList (some "bar".toList) none [],
         XElem.mk "b".toList (some "y".toList) none []]) 1).children.length =
      (XElem.mk "p".toList none none
        [XElem.mk "a".toList (some "x".toList) (some "foo".toList) [],
         XElem.mk "hsp".toList (some "bar".toList) none [],
         XElem.mk "b".toList (some "y".toList) none []]).children.length - 1 :=
  C7_splice_one_space _ 1 _ _ (XElem.mk "b".toList (some "y".toList) none [])
    ("foo".toList) ("bar".toList) (by omega) rfl rfl rfl rfl (by decide) (by decide)
    rfl (by decide) (by decide) rfl rfl

/- ## C8 -/

/-- C8: whenever `_parse_metadata` produces a `MetaData` value, every plain
field is `None` when its selector matched nothing; the PDF URL is the fixed
base prefix plus the matched fragment (`None` when no match), and the HTML
URL is the prefix plus the matched fragment, falling back to the prefix plus
the article identifier (`pii`) when no explicit HTML fragment is found. -/
theorem C8_metadata_fields (sel : MetaSel) (m : MetaD)
    (h : parseMetadata sel = Except.ok m) :
    (sel.title = [] → m.title = none) ∧
    (sel.authors = [] → m.authors = none) ∧
    (sel.publisher = [] → m.publisher = none) ∧
    (sel.journal = [] → m.journal = none) ∧
    (sel.date = [] → m.date = none) ∧
    (sel.language = [] → m.language = none) ∧
    (sel.volume = [] → m.volume = none) ∧
    (sel.issue = [] → m.issue = none) ∧
    (sel.firstpage = [] → m.firstpage = none) ∧
    (sel.lastpage = [] → m.lastpage = none) ∧
    (sel.doi = [] → m.doi = none) ∧
    (sel.pdf = [] → m.pdf_url = none) ∧
    (∀ s rest, sel.pdf = some s :: rest → m.pdf_url = some (urlPre ++ s)) ∧
    (∀ s rest, sel.html = some s :: rest → m.html_url = urlPre ++ s) ∧
    (∀ p rest, sel.html = [] → sel.pii = some p :: rest →
      m.html_url = urlPre ++ p) := by
  rcases hpdf : sel.pdf with - | ⟨pt, prest⟩ <;> try rcases pt with - | ps
  all_goals rcases hhtml : sel.html with - | ⟨ht, hrest⟩ <;> try rcases ht with - | hs
  all_goals rcases hpii : sel.pii with - | ⟨qt, qrest⟩ <;> try rcases qt with - | qs
  all_goals simp only [parseMetadata, hpdf, hhtml, hpii, bind, Except.bind] at h
  all_goals try exact Except.noConfusion h
  all_goals obtain rfl : _ = m := Except.ok.inj h
  all_goals refine ⟨fun hc => ?_, fun hc => ?_, fun hc => ?_, fun hc => ?_, fun hc => ?_,
    fun hc => ?_, fun hc => ?_, fun hc => ?_, fun hc => ?_, fun hc => ?_, fun hc => ?_,
    fun hc => ?_, fun s rest hc => ?_, fun s rest hc => ?_, fun p rest hc1 hc2 => ?_⟩
  all_goals simp_all [firstText]

/-- Witness for C8: a metadata region where only the `pii` selector matches
(`'P'`) — all plain fields are `None`, the PDF URL is `None`, and the HTML
URL is the base prefix plus the article identifier. -/
theorem C8_metadata_fields_witness :
    (MetaD.title ⟨none, none, none, none, none, none, none, none, none, none, none,
        none, urlPre ++ ['P']⟩ = none) ∧
    (MetaD.pdf_url ⟨none, none, none, none, none, none, none, none, none, none, none,
        none, urlPre ++ ['P']⟩ = none) ∧
    (MetaD.html_url ⟨none, none, none, none, none, none, none, none, none, none, none,
        none, urlPre ++ ['P']⟩ = urlPre ++ ['P']) := by
  have h := C8_metadata_fields
    ⟨[], [], [], [], [], [], [], [], [], [], [], [some ['P']], [], []⟩
    ⟨none, none, none, none, none, none, none, none, none, none, none, none,
      urlPre ++ ['P']⟩ rfl
  exact ⟨h.1 rfl, h.2.2.2.2.2.2.2.2.2.2.2.1 rfl,
    h.2.2.2.2.2.2.2.2.2.2.2.2.2.2 ['P'] [] rfl rfl⟩

/- ## Association-list and grid-operation lemmas -/

theorem alGet_eq_none_iff {β : Type} :
    ∀ (l : List (Nat × β)) (k : Nat), alGet l k = none ↔ k ∉ l.map Prod.fst := by
  intro l k
  induction l with
  | nil => simp [alGet]
  | cons p rest ih =>
    by_cases hp : p.1 = k
    · simp [alGet, hp]
    · simp [alGet, hp, ih, Ne.symm hp]

theorem alGet_isSome_iff {β : Type} (l : List (Nat × β)) (k : Nat) :
    (alGet l k).isSome = true ↔ k ∈ l.map Prod.fst := by
  rw [← Decidable.not_iff_not, Option.not_isSome_iff_eq_none, alGet_eq_none_iff]

theorem alGet_append {β : Type} :
    ∀ (l1 l2 : List (Nat × β)) (k : Nat),
    alGet (l1 ++ l2) k = ((alGet l1 k).rec (alGet l2 k) (fun v => some v) : Option β) := by
  intro l1 l2 k
  induction l1 with
  | nil => simp [alGet]
  | cons p rest ih =>
    by_cases hp : p.1 = k
    · simp [alGet, hp]
    · simp [alGet, hp, ih]

theorem alGet_append_left_none {β : Type} (l1 l2 : List (Nat × β)) (k : Nat)
    (h : alGet l1 k = none) : alGet (l1 ++ l2) k = alGet l2 k := by
  rw [alGet_append, h]

theorem alGet_alInsert_self {β : Type} :
    ∀ (l : List (Nat × β)) (k : Nat) (v : β), alGet (alInsert l k v) k = some v := by
  intro l k v
  induction l with
  | nil => simp [alInsert, alGet]
  | cons p rest ih =>
    by_cases hp : p.1 = k
    · simp [alInsert, hp, alGet]
    · simp [alInsert, hp, alGet, ih]

theorem alGet_alInsert_ne {β : Type} :
    ∀ (l : List (Nat × β)) (k k' : Nat) (v : β), k' ≠ k →
    alGet (alInsert l k v) k' = alGet l k' := by
  intro l k k' v hne
  induction l with
  | nil => simp [alInsert, alGet, Ne.symm hne]
  | cons p rest ih =>
    by_cases hp : p.1 = k
    · simp [alInsert, hp, alGet, Ne.symm hne, hne]
    · by_cases hp' : p.1 = k'
      · simp [alInsert, hp, alGet, hp', hne]
      · simp [alInsert, hp, alGet, hp', ih]

theorem alInsert_not_mem {β : Type} :
    ∀ (l : List (Nat × β)) (k : Nat) (v : β), k ∉ l.map Prod.fst →
    alInsert l k v = l ++ [(k, v)] := by
  intro l k v h
  induction l with
  | nil => simp [alInsert]
  | cons p rest ih =>
    simp only [List.map_cons, List.mem_cons] at h
    push_neg at h
    simp [alInsert, Ne.symm h.1, ih h.2]

theorem rowOf_ensureRow (g : Grid) (r r' : Nat) :
    rowOf (ensureRow g r) r' = rowOf g r' := by
  unfold ensureRow
  cases hg : alGet g r with
  | some w => rfl
  | none =>
    by_cases hr : r' = r
    · subst hr
      rw [rowOf, alGet_append_left_none _ _ _ hg]
      simp [alGet, rowOf, hg]
    · rw [rowOf, alGet_append, rowOf]
      cases halt : alGet g r' with
      | some w => simp
      | none => simp [alGet, Ne.symm hr]

theorem alGet_ensureRow_self (g : Grid) (r : Nat) :
    alGet (ensureRow g r) r = some (rowOf g r) := by
  unfold ensureRow
  cases hg : alGet g r with
  | some w => simp [rowOf, hg]
  | none =>
    rw [alGet_append_left_none _ _ _ hg]
    simp [alGet, rowOf, hg]

theorem gridGet_ensureRow (g : Grid) (r r' c : Nat) :
    gridGet (ensureRow g r) r' c = gridGet g r' c := by
  rw [gridGet, gridGet, rowOf_ensureRow]

theorem alGet_setCell (g : Grid) (r c : Nat) (v : Cll) :
    ∀ k, alGet (setCell g r c v) k =
      (alGet g k).map (fun w => if k = r then alInsert w c v else w) := by
  intro k
  induction g with
  | nil => simp [setCell, alGet]
  | cons p rest ih =>
    simp only [setCell, List.map_cons] at ih ⊢
    by_cases hpr : p.1 = r
    · by_cases hpk : p.1 = k
      · have hkr : k = r := by rw [← hpk, hpr]
        simp [alGet, hpr, hpk, hkr]
      · have hkr : ¬(k = r) := fun h => hpk (by rw [hpr, h])
        have hrk : ¬(r = k) := fun h => hkr h.symm
        simp [alGet, hpr, hpk, hkr, hrk, ih]
    · by_cases hpk : p.1 = k
      · by_cases hkr : k = r
        · exact absurd (hpk.trans hkr) hpr
        · simp [alGet, hpr, hpk, hkr]
      · simp [alGet, hpr, hpk, ih]

theorem gridGet_setCell_ne (g : Grid) (r c : Nat) (v : Cll) (r' c' : Nat)
    (h : r' ≠ r ∨ c' ≠ c) :
    gridGet (setCell g r c v) r' c' = gridGet g r' c' := by
  rcases h with h | h
  · rw [gridGet, gridGet, rowOf, rowOf, alGet_setCell]
    cases alGet g r' with
    | none => simp
    | some w => simp [h]
  · rw [gridGet, gridGet, rowOf, rowOf, alGet_setCell]
    cases alGet g r' with
    | none => simp
    | some w =>
      by_cases hr : r' = r
      · simp [hr, alGet_alInsert_ne w c c' v h]
      · simp [hr]

theorem gridGet_setCell_self (g : Grid) (r c : Nat) (v : Cll)
    (h : (alGet g r).isSome = true) :
    gridGet (setCell g r c v) r c = some v := by
  rw [gridGet, rowOf, alGet_setCell]
  cases hg : alGet g r with
  | none => rw [hg] at h; simp at h
  | some w => simp [alGet_alInsert_self]

/- ## Next-free-column lemmas -/

theorem nextFreeAux_ge : ∀ (fuel : Nat) (keys : List Nat) (c : Nat),
    c ≤ nextFreeAux fuel keys c := by
  intro fuel
  induction fuel with
  | zero => intro keys c; simp [nextFreeAux]
  | succ n ih =>
    intro keys c
    by_cases h : c ∈ keys
    · rw [nextFreeAux, if_pos h]
      exact Nat.le_trans (Nat.le_succ c) (ih (keys.erase c) (c + 1))
    · rw [nextFreeAux, if_neg h]

theorem nextFreeAux_not_mem : ∀ (fuel : Nat) (keys : List Nat) (c : Nat),
    keys.length < fuel → nextFreeAux fuel keys c ∉ keys := by
  intro fuel
  induction fuel with
  | zero => intro keys c h; omega
  | succ n ih =>
    intro keys c h
    by_cases hm : c ∈ keys
    · rw [nextFreeAux, if_pos hm]
      have hlen : (keys.erase c).length < n := by
        rw [List.length_erase_of_mem hm]
        have := List.length_pos_of_mem hm
        omega
      have hrec := ih (keys.erase c) (c + 1) hlen
      have hge := nextFreeAux_ge n (keys.erase c) (c + 1)
      intro hmem
      have hne : nextFreeAux n (keys.erase c) (c + 1) ≠ c := by omega
      exact hrec ((List.mem_erase_of_ne hne).mpr hmem)
    · rw [nextFreeAux, if_neg hm]
      exact hm

theorem nextFreeRow_none (w : Row') (c : Nat) :
    alGet w (nextFreeRow w c) = none := by
  rw [alGet_eq_none_iff]
  exact nextFreeAux_not_mem _ _ c (by omega)

theorem nextFreeRow_eq (w : Row') (c : Nat) (h : alGet w c = none) :
    nextFreeRow w c = c := by
  rw [nextFreeRow, nextFreeAux, if_neg]
  rw [alGet_eq_none_iff] at h
  exact h

/- ## Row-span placement lemmas -/

theorem nested_chain (g : Grid) (row : Nat) (hn : Nested g row) :
    ∀ j c, (gridGet g (row + j) c).isSome = true →
    (gridGet g row c).isSome = true := by
  intro j
  induction j with
  | zero => intro c h; exact h
  | succ n ihj => intro c h; exact ihj c (hn n c h)

theorem nested_succ (g : Grid) (r : Nat) (hn : Nested g r) : Nested g (r + 1) := by
  intro k c h
  have e1 : r + 1 + k + 1 = r + (k + 1) + 1 := by omega
  have e2 : r + (k + 1) = r + 1 + k := by omega
  rw [e1] at h
  have := hn (k + 1) c h
  rwa [e2] at this

theorem placeDown_spec (v : Cll) :
    ∀ (cnt row : Nat) (g : Grid) (cn : Nat), Nested g row →
    ∃ g', placeDown v row (cnt + 1) (g, cn) = (g', nextFreeRow (rowOf g row) cn) ∧
      ∀ r' c', gridGet g' r' c' =
        if row ≤ r' ∧ r' < row + (cnt + 1) ∧ c' = nextFreeRow (rowOf g row) cn
        then some v else gridGet g r' c' := by
  intro cnt
  induction cnt with
  | zero =>
    intro row g cn hn
    set c := nextFreeRow (rowOf g row) cn with hc
    refine ⟨setCell (ensureRow g row) row c v, ?_, ?_⟩
    · simp only [placeDown]
      rw [rowOf_ensureRow]
    · intro r' c'
      by_cases h1 : r' = row ∧ c' = c
      · obtain ⟨rfl, rfl⟩ := h1
        rw [gridGet_setCell_self]
        · rw [if_pos ⟨Nat.le_refl _, by omega, rfl⟩]
        · rw [alGet_ensureRow_self]; rfl
      · rw [gridGet_setCell_ne, gridGet_ensureRow]
        · rw [if_neg]
          rintro ⟨ha, hb, hcc⟩
          exact h1 ⟨by omega, hcc⟩
        · by_cases h2 : r' = row
          · exact Or.inr (fun hcc => h1 ⟨h2, hcc⟩)
          · exact Or.inl h2
  | succ n ih =>
    intro row g cn hn
    set c := nextFreeRow (rowOf g row) cn with hc
    have hfree : gridGet g row c = none := nextFreeRow_none (rowOf g row) cn
    set g2 := setCell (ensureRow g row) row c v with hg2
    have hg2get : ∀ r' c', gridGet g2 r' c' =
        if r' = row ∧ c' = c then some v else gridGet g r' c' := by
      intro r' c'
      by_cases h1 : r' = row ∧ c' = c
      · obtain ⟨rfl, rfl⟩ := h1
        rw [if_pos ⟨rfl, rfl⟩, hg2, gridGet_setCell_self]
        rw [alGet_ensureRow_self]; rfl
      · rw [hg2, gridGet_setCell_ne, gridGet_ensureRow, if_neg h1]
        by_cases h2 : r' = row
        · exact Or.inr (fun hcc => h1 ⟨h2, hcc⟩)
        · exact Or.inl h2
    have hn2 : Nested g2 (row + 1) := by
      intro k c' hocc
      rw [hg2get] at hocc ⊢
      rw [if_neg (by rintro ⟨h, -⟩; omega)] at hocc
      rw [if_neg (by rintro ⟨h, -⟩; omega)]
      have e3 : row + 1 + k + 1 = row + (k + 1) + 1 := by omega
      rw [e3] at hocc
      have h4 := hn (k + 1) c' hocc
      have e4 : row + (k + 1) = row + 1 + k := by omega
      rwa [e4] at h4
    have hg1c : gridGet g (row + 1) c = none := by
      cases ho : gridGet g (row + 1) c with
      | none => rfl
      | some w =>
        exfalso
        have h0 : (gridGet g (row + 0 + 1) c).isSome = true := by
          rw [show row + 0 + 1 = row + 1 from rfl, ho]; rfl
        have h3 := hn 0 c h0
        rw [show row + 0 = row from rfl, hfree] at h3
        exact Bool.noConfusion h3
    have hcnext : nextFreeRow (rowOf g2 (row + 1)) c = c := by
      apply nextFreeRow_eq
      show gridGet g2 (row + 1) c = none
      rw [hg2get, if_neg (by rintro ⟨h, -⟩; omega), hg1c]
    obtain ⟨g3, heq3, hchar3⟩ := ih (row + 1) g2 c hn2
    refine ⟨g3, ?_, ?_⟩
    · have hstep : placeDown v row (n + 1 + 1) (g, cn) =
          placeDown v (row + 1) (n + 1) (g2, c) := by
        simp only [placeDown]
        rw [rowOf_ensureRow]
      rw [hstep, heq3, hcnext]
    · intro r' c'
      rw [hchar3 r' c', hcnext, hg2get r' c']
      by_cases hA1 : row + 1 ≤ r' ∧ r' < row + 1 + (n + 1) ∧ c' = c
      · rw [if_pos hA1, if_pos ⟨by omega, by omega, hA1.2.2⟩]
      · rw [if_neg hA1]
        by_cases hB : r' = row ∧ c' = c
        · rw [if_pos hB, if_pos ⟨by omega, by omega, hB.2⟩]
        · rw [if_neg hB, if_neg]
          rintro ⟨ha, hb, hcc⟩
          by_cases hr : r' = row
          · exact hB ⟨hr, hcc⟩
          · exact hA1 ⟨by omega, by omega, hcc⟩

theorem placeDown_preserve (v : Cll) :
    ∀ (cnt rownum : Nat) (g : Grid) (cn : Nat) (r c : Nat) (v₀ : Cll),
    gridGet g r c = some v₀ →
    gridGet (placeDown v rownum cnt (g, cn)).1 r c = some v₀ := by
  intro cnt
  induction cnt with
  | zero => intro rownum g cn r c v₀ h; exact h
  | succ n ih =>
    intro rownum g cn r c v₀ h
    simp only [placeDown]
    apply ih
    rw [rowOf_ensureRow]
    have hne : ¬(r = rownum ∧ c = nextFreeRow (rowOf g rownum) cn) := by
      rintro ⟨h1, h2⟩
      rw [h1, h2] at h
      rw [show gridGet g rownum (nextFreeRow (rowOf g rownum) cn)
            = alGet (rowOf g rownum) (nextFreeRow (rowOf g rownum) cn) from rfl,
          nextFreeRow_none] at h
      exact Option.noConfusion h
    rw [gridGet_setCell_ne, gridGet_ensureRow]
    · exact h
    · by_cases h1 : r = rownum
      · exact Or.inr (fun hcc => hne ⟨h1, hcc⟩)
      · exact Or.inl h1

theorem placeDown_nested (v : Cll) (cnt row : Nat) (g : Grid) (cn : Nat)
    (hn : Nested g row) : Nested (placeDown v row cnt (g, cn)).1 row := by
  cases cnt with
  | zero => exact hn
  | succ n =>
    obtain ⟨g', heq, hchar⟩ := placeDown_spec v n row g cn hn
    rw [heq]
    intro k c' hocc
    rw [hchar] at hocc ⊢
    by_cases hA1 : row ≤ row + k + 1 ∧ row + k + 1 < row + (n + 1) ∧
        c' = nextFreeRow (rowOf g row) cn
    · rw [if_pos ⟨by omega, by omega, hA1.2.2⟩]; rfl
    · rw [if_neg hA1] at hocc
      by_cases hA2 : row ≤ row + k ∧ row + k < row + (n + 1) ∧
          c' = nextFreeRow (rowOf g row) cn
      · rw [if_pos hA2]; rfl
      · rw [if_neg hA2]; exact hn k c' hocc

theorem placeUnits_preserve (row : Nat) (v : Cll) (rs : Nat) :
    ∀ (cs : Nat) (g : Grid) (cn r c : Nat) (v₀ : Cll),
    gridGet g r c = some v₀ →
    gridGet (placeUnits row v rs cs (g, cn)).1 r c = some v₀ := by
  intro cs
  induction cs with
  | zero => intro g cn r c v₀ h; exact h
  | succ n ih =>
    intro g cn r c v₀ h
    simp only [placeUnits]
    rcases hst : placeDown v row rs (g, cn) with ⟨g', cn'⟩
    apply ih
    have := placeDown_preserve v rs row g cn r c v₀ h
    rw [hst] at this
    exact this

theorem placeUnits_nested (row : Nat) (v : Cll) (rs : Nat) :
    ∀ (cs : Nat) (g : Grid) (cn : Nat), Nested g row →
    Nested (placeUnits row v rs cs (g, cn)).1 row := by
  intro cs
  induction cs with
  | zero => intro g cn hn; exact hn
  | succ n ih =>
    intro g cn hn
    simp only [placeUnits]
    rcases hst : placeDown v row rs (g, cn) with ⟨g', cn'⟩
    apply ih
    have := placeDown_nested v rs row g cn hn
    rw [hst] at this
    exact this

theorem placeCell_preserve (row : Nat) (pc : PCell) (g : Grid) (cn r c : Nat) (v₀ : Cll)
    (h : gridGet g r c = some v₀) :
    gridGet (placeCell row pc (g, cn)).1 r c = some v₀ :=
  placeUnits_preserve row pc.v pc.rowspan pc.colspan g cn r c v₀ h

theorem placeCell_nested (row : Nat) (pc : PCell) (g : Grid) (cn : Nat)
    (hn : Nested g row) : Nested (placeCell row pc (g, cn)).1 row :=
  placeUnits_nested row pc.v pc.rowspan pc.colspan g cn hn

theorem placeCell_hits (row : Nat) (pc : PCell) (g : Grid) (cn : Nat)
    (hn : Nested g row) (hrs : pc.rowspan = 2) (hcs : 1 ≤ pc.colspan) :
    ∃ c, gridGet (placeCell row pc (g, cn)).1 row c = some pc.v ∧
      gridGet (placeCell row pc (g, cn)).1 (row + 1) c = some pc.v := by
  rcases pc with ⟨v, cs, rs⟩
  simp only at hrs hcs ⊢
  subst hrs
  rcases cs with - | k
  · omega
  · simp only [placeCell, placeUnits]
    obtain ⟨g', heq, hchar⟩ := placeDown_spec v 1 row g cn hn
    have heq2 : placeDown v row 2 (g, cn) = (g', nextFreeRow (rowOf g row) cn) := heq
    rw [heq2]
    refine ⟨nextFreeRow (rowOf g row) cn, ?_, ?_⟩
    · apply placeUnits_preserve
      rw [hchar, if_pos ⟨Nat.le_refl _, by omega, rfl⟩]
    · apply placeUnits_preserve
      rw [hchar, if_pos ⟨by omega, by omega, rfl⟩]

theorem placeCells_preserve (row : Nat) :
    ∀ (cells : List PCell) (g : Grid) (cn r c : Nat) (v₀ : Cll),
    gridGet g r c = some v₀ →
    gridGet (placeCells row cells (g, cn)).1 r c = some v₀ := by
  intro cells
  induction cells with
  | nil => intro g cn r c v₀ h; exact h
  | cons pc rest ih =>
    intro g cn r c v₀ h
    simp only [placeCells]
    rcases hst : placeCell row pc (g, cn) with ⟨g', cn'⟩
    apply ih
    have := placeCell_preserve row pc g cn r c v₀ h
    rw [hst] at this
    exact this

theorem placeCells_nested (row : Nat) :
    ∀ (cells : List PCell) (g : Grid) (cn : Nat), Nested g row →
    Nested (placeCells row cells (g, cn)).1 row := by
  intro cells
  induction cells with
  | nil => intro g cn hn; exact hn
  | cons pc rest ih =>
    intro g cn hn
    simp only [placeCells]
    rcases hst : placeCell row pc (g, cn) with ⟨g', cn'⟩
    apply ih
    have := placeCell_nested row pc g cn hn
    rw [hst] at this
    exact this

theorem placeCells_hits (row : Nat) :
    ∀ (cells : List PCell) (k : Nat) (pc : PCell) (g : Grid) (cn : Nat),
    Nested g row → cells[k]? = some pc → pc.rowspan = 2 → 1 ≤ pc.colspan →
    ∃ c, gridGet (placeCells row cells (g, cn)).1 row c = some pc.v ∧
      gridGet (placeCells row cells (g, cn)).1 (row + 1) c = some pc.v := by
  intro cells
  induction cells with
  | nil => intro k pc g cn hn hk; simp at hk
  | cons pc₀ rest ih =>
    intro k pc g cn hn hk hrs hcs
    simp only [placeCells]
    rcases k with - | k'
    · simp only [List.getElem?_cons_zero, Option.some.injEq] at hk
      subst hk
      rcases hst : placeCell row pc₀ (g, cn) with ⟨g', cn'⟩
      obtain ⟨c, h1, h2⟩ := placeCell_hits row pc₀ g cn hn hrs hcs
      rw [hst] at h1 h2
      exact ⟨c, placeCells_preserve row rest g' cn' row c pc₀.v h1,
             placeCells_preserve row rest g' cn' (row + 1) c pc₀.v h2⟩
    · rcases hst : placeCell row pc₀ (g, cn) with ⟨g', cn'⟩
      apply ih k' pc g' cn' ?_ ?_ hrs hcs
      · have := placeCell_nested row pc₀ g cn hn
        rw [hst] at this
        exact this
      · simpa using hk

theorem buildGridAux_preserve :
    ∀ (rows : List (List PCell)) (i : Nat) (g : Grid) (r c : Nat) (v₀ : Cll),
    gridGet g r c = some v₀ → gridGet (buildGridAux i rows g) r c = some v₀ := by
  intro rows
  induction rows with
  | nil => intro i g r c v₀ h; exact h
  | cons cells rest ih =>
    intro i g r c v₀ h
    simp only [buildGridAux]
    apply ih
    rw [rowStep]
    rcases hst : placeCells i cells (g, 0) with ⟨g', cn'⟩
    have := placeCells_preserve i cells g 0 r c v₀ h
    rw [hst] at this
    exact this

theorem buildGridAux_hits :
    ∀ (rows : List (List PCell)) (r0 : Nat) (cells : List PCell) (k : Nat) (pc : PCell)
      (i : Nat) (g : Grid),
    Nested g i → rows[r0]? = some cells → cells[k]? = some pc →
    pc.rowspan = 2 → 1 ≤ pc.colspan →
    ∃ c, gridGet (buildGridAux i rows g) (i + r0) c = some pc.v ∧
      gridGet (buildGridAux i rows g) (i + r0 + 1) c = some pc.v := by
  intro rows
  induction rows with
  | nil => intro r0 cells k pc i g hn hr; simp at hr
  | cons cells₀ rest ih =>
    intro r0 cells k pc i g hn hr hk hrs hcs
    simp only [buildGridAux]
    rcases r0 with - | r0'
    · simp only [List.getElem?_cons_zero, Option.some.injEq] at hr
      subst hr
      rw [rowStep]
      rcases hst : placeCells i cells₀ (g, 0) with ⟨g', cn'⟩
      obtain ⟨c, h1, h2⟩ := placeCells_hits i cells₀ k pc g 0 hn hk hrs hcs
      rw [hst] at h1 h2
      exact ⟨c, buildGridAux_preserve rest (i + 1) g' (i + 0) c pc.v h1,
             buildGridAux_preserve rest (i + 1) g' (i + 0 + 1) c pc.v h2⟩
    · rw [rowStep]
      rcases hst : placeCells i cells₀ (g, 0) with ⟨g', cn'⟩
      have hn' : Nested g' i := by
        have := placeCells_nested i cells₀ g 0 hn
        rw [hst] at this
        exact this
      obtain ⟨c, h1, h2⟩ := ih r0' cells k pc (i + 1) g' (nested_succ g' i hn')
        (by simpa using hr) hk hrs hcs
      have e : i + 1 + r0' = i + (r0' + 1) := by omega
      rw [e] at h1 h2
      exact ⟨c, h1, h2⟩

/- ## Attribute-parse correspondence -/

theorem parseCellsRow_get :
    ∀ (row : List SrcCell) (rid j : Nat) (prow : List PCell),
    parseCellsRow rid j row = Except.ok prow →
    ∀ (k : Nat) (cell : SrcCell), row[k]? = some cell →
    ∃ a b m', colAttrVal cell.namest = Except.ok a ∧
      colAttrVal cell.nameend = Except.ok b ∧
      moreRowsVal cell.morerows = Except.ok m' ∧
      prow[k]? = some ⟨Cll.src rid (j + k) cell.text, ((b - a) + 1).toNat, (m' + 1).toNat⟩ := by
  intro row
  induction row with
  | nil => intro rid j prow hp k cell hk; simp at hk
  | cons c0 rest ih =>
    intro rid j prow hp k cell hk
    simp only [parseCellsRow, bind, Except.bind] at hp
    cases ha : colAttrVal c0.namest with
    | error e => simp only [ha] at hp; exact Except.noConfusion hp
    | ok a =>
      simp only [ha] at hp
      cases hb : colAttrVal c0.nameend with
      | error e => simp only [hb] at hp; exact Except.noConfusion hp
      | ok b =>
        simp only [hb] at hp
        cases hm : moreRowsVal c0.morerows with
        | error e => simp only [hm] at hp; exact Except.noConfusion hp
        | ok m' =>
          simp only [hm] at hp
          cases hr : parseCellsRow rid (j + 1) rest with
          | error e => simp only [hr] at hp; exact Except.noConfusion hp
          | ok prest =>
            simp only [hr] at hp
            obtain rfl := Except.ok.inj hp
            rcases k with - | k'
            · simp only [List.getElem?_cons_zero, Option.some.injEq] at hk
              subst hk
              exact ⟨a, b, m', ha, hb, hm, by simp⟩
            · simp only [List.getElem?_cons_succ] at hk ⊢
              obtain ⟨a', b', m'', h1, h2, h3, h4⟩ := ih rid (j + 1) prest hr k' cell hk
              refine ⟨a', b', m'', h1, h2, h3, ?_⟩
              have e : j + 1 + k' = j + (k' + 1) := by omega
              rwa [e] at h4

theorem parseCells_get :
    ∀ (ls : List (List SrcCell)) (i r : Nat) (ps : List (List PCell)),
    parseCells i ls = Except.ok ps →
    ∀ row, ls[r]? = some row →
    ∃ prow, ps[r]? = some prow ∧ parseCellsRow (i + r) 0 row = Except.ok prow := by
  intro ls
  induction ls with
  | nil => intro i r ps hp row hr; simp at hr
  | cons row₀ rest ih =>
    intro i r ps hp row hr
    simp only [parseCells, bind, Except.bind] at hp
    cases h0 : parseCellsRow i 0 row₀ with
    | error e => simp only [h0] at hp; exact Except.noConfusion hp
    | ok prow₀ =>
      simp only [h0] at hp
      cases h1 : parseCells (i + 1) rest with
      | error e => simp only [h1] at hp; exact Except.noConfusion hp
      | ok prest =>
        simp only [h1] at hp
        obtain rfl := Except.ok.inj hp
        rcases r with - | r'
        · simp only [List.getElem?_cons_zero, Option.some.injEq] at hr
          subst hr
          exact ⟨prow₀, by simp, h0⟩
        · simp only [List.getElem?_cons_succ] at hr ⊢
          obtain ⟨prow, hp1, hp2⟩ := ih (i + 1) r' prest h1 row hr
          refine ⟨prow, hp1, ?_⟩
          have e : i + 1 + r' = i + (r' + 1) := by omega
          rwa [e] at hp2

/- ## C5 -/

/-- C5 counterexample: a cell with `morerows="1"` but `namest="2"` and no
`nameend` has column span `(1 - 2) + 1 = 0`, so `range(colspan)` is empty and
the cell is placed nowhere: the grid stays empty and `_parse_table_rows`
returns no rows at all — the cell's content appears in neither its own row
nor the row below. -/
theorem C5_morerows_counterexample :
    buildGrid [[⟨Cll.src 0 0 ['x'], 0, 2⟩]] = ([] : Grid) ∧
    parseTableRowsEls [[⟨['x'], some ['2'], none, some ['1']⟩]] = Except.ok [] := by
  exact ⟨rfl, rfl⟩

/-- C5 amended: in a table whose span attributes all parse, every cell
carrying `morerows="1"` whose column-span attributes span at least one column
(parsed `namest ≤ nameend`, the defaults included) has its converted content
placed in the reconstructed grid at some column `c` of both its own physical
row and the row immediately below — the same column index `c` in both rows.
The proof rests on the invariant that, while rows are processed top to bottom,
column occupation below the current row is downward-nested, so the shared
column cursor of the row-span loop settles on the same free column in both
rows. -/
theorem C5_morerows_both_rows (els : List (List SrcCell)) (pels : List (List PCell))
    (r k : Nat) (row : List SrcCell) (cell : SrcCell) (a b : Int)
    (hp : parseCells 0 els = Except.ok pels)
    (hrow : els[r]? = some row) (hcell : row[k]? = some cell)
    (hmr : cell.morerows = some ['1'])
    (ha : colAttrVal cell.namest = Except.ok a)
    (hb : colAttrVal cell.nameend = Except.ok b)
    (hab : a ≤ b) :
    ∃ c, gridGet (buildGrid pels) r c = some (Cll.src r k cell.text) ∧
      gridGet (buildGrid pels) (r + 1) c = some (Cll.src r k cell.text) := by
  obtain ⟨prow, hps, hpr⟩ := parseCells_get els 0 r pels hp row hrow
  obtain ⟨a', b', m', ha', hb', hm', hpk⟩ := parseCellsRow_get row (0 + r) 0 prow hpr k cell hcell
  have ea : a' = a := Except.ok.inj ((ha'.symm).trans ha)
  have eb : b' = b := Except.ok.inj ((hb'.symm).trans hb)
  have hm1 : moreRowsVal cell.morerows = Except.ok 1 := by rw [hmr]; rfl
  have em : m' = (1 : Int) := Except.ok.inj ((hm'.symm).trans hm1)
  rw [ea, eb, em] at hpk
  have hrs : (⟨Cll.src (0 + r) (0 + k) cell.text, ((b - a) + 1).toNat,
      ((1 : Int) + 1).toNat⟩ : PCell).rowspan = 2 := rfl
  have hcs : 1 ≤ (⟨Cll.src (0 + r) (0 + k) cell.text, ((b - a) + 1).toNat,
      ((1 : Int) + 1).toNat⟩ : PCell).colspan := by
    show 1 ≤ ((b - a) + 1).toNat
    omega
  have hn0 : Nested ([] : Grid) 0 := by
    intro j c h
    simp [gridGet, rowOf, alGet] at h
  obtain ⟨c, h1, h2⟩ := buildGridAux_hits pels r
    prow k _ 0 ([] : Grid) hn0 hps hpk hrs hcs
  rw [show (0 : Nat) + r = r from by omega] at h1 h2
  rw [show (0 : Nat) + k = k from by omega] at h1 h2
  exact ⟨c, h1, h2⟩

/-- Witness for C5: a one-cell table `[[<entry morerows="1">x</entry>]]` —
the cell's content lands at some column of both row 0 and row 1. -/
theorem C5_morerows_both_rows_witness :
    ∃ c, gridGet (buildGrid [[⟨Cll.src 0 0 ['x'], 1, 2⟩]]) 0 c =
        some (Cll.src 0 0 ['x']) ∧
      gridGet (buildGrid [[⟨Cll.src 0 0 ['x'], 1, 2⟩]]) 1 c =
        some (Cll.src 0 0 ['x']) :=
  C5_morerows_both_rows [[⟨['x'], none, none, some ['1']⟩]]
    [[⟨Cll.src 0 0 ['x'], 1, 2⟩]] 0 0 [⟨['x'], none, none, some ['1']⟩]
    ⟨['x'], none, none, some ['1']⟩ 1 1 rfl rfl rfl rfl rfl rfl (by decide)

/- ## Padding lemmas -/

theorem maxLenOf_cons (x : List Cll) (l : List (List Cll)) :
    maxLenOf (x :: l) = max x.length (maxLenOf l) := rfl

theorem le_maxLenOf : ∀ (l : List (List Cll)) (r : List Cll), r ∈ l →
    r.length ≤ maxLenOf l := by
  intro l
  induction l with
  | nil => intro r h; simp at h
  | cons x rest ih =>
    intro r h
    rcases List.mem_cons.mp h with hx | h'
    · rw [hx, maxLenOf_cons]
      exact Nat.le_max_left _ _
    · rw [maxLenOf_cons]
      exact Nat.le_trans (ih r h') (Nat.le_max_right _ _)

theorem maxLenOf_append : ∀ (a b : List (List Cll)),
    maxLenOf (a ++ b) = max (maxLenOf a) (maxLenOf b) := by
  intro a b
  induction a with
  | nil => simp [maxLenOf]
  | cons x rest ih =>
    rw [List.cons_append, maxLenOf_cons, ih, maxLenOf_cons, Nat.max_assoc]

theorem padStep_length : ∀ (l acc : List (List Cll)),
    (∀ a ∈ acc, a.length = maxLenOf (acc ++ l)) →
    ∀ r ∈ padStep acc l, r.length = maxLenOf (acc ++ l) := by
  intro l
  induction l with
  | nil =>
    intro acc hacc r hr
    simp only [padStep] at hr
    exact hacc r hr
  | cons x rest ih =>
    intro acc hacc r hr
    simp only [padStep] at hr
    set M := maxLenOf (acc ++ x :: rest) with hM
    set x' := x ++ List.replicate (M - x.length) Cll.pad with hxdef
    have hxle : x.length ≤ M := le_maxLenOf _ x (by simp)
    have hx' : x'.length = M := by
      rw [hxdef]
      simp only [List.length_append, List.length_replicate]
      omega
    have h1 : M = max (maxLenOf acc) (max x.length (maxLenOf rest)) := by
      rw [hM, maxLenOf_append, maxLenOf_cons]
    have hMnew : maxLenOf ((acc ++ [x']) ++ rest) = M := by
      rw [maxLenOf_append, maxLenOf_append, maxLenOf_cons]
      have h0 : maxLenOf ([] : List (List Cll)) = 0 := rfl
      rw [h0, hx']
      omega
    have := ih (acc ++ [x']) ?_ r hr
    · rw [hMnew] at this
      exact this
    · intro a ha
      rw [hMnew]
      rcases List.mem_append.mp ha with h' | h'
      · exact hacc a h'
      · rw [List.mem_singleton.mp h']
        exact hx'

theorem padStep_shape : ∀ (l acc : List (List Cll)), ∀ r ∈ padStep acc l,
    r ∈ acc ∨ ∃ r₀ ∈ l, ∃ kk, r = r₀ ++ List.replicate kk Cll.pad := by
  intro l
  induction l with
  | nil =>
    intro acc r hr
    left
    simpa [padStep] using hr
  | cons x rest ih =>
    intro acc r hr
    simp only [padStep] at hr
    rcases ih (acc ++ [x ++ List.replicate (maxLenOf (acc ++ x :: rest) - x.length) Cll.pad])
        r hr with h | ⟨r₀, hr₀, kk, hkk⟩
    · rcases List.mem_append.mp h with h' | h'
      · left; exact h'
      · right
        exact ⟨x, by simp, _, List.mem_singleton.mp h'⟩
    · right
      exact ⟨r₀, by simp [hr₀], kk, hkk⟩

/- ## C3 -/

/-- C3: whenever `_parse_table_rows` returns a row list, all returned rows
have equal length (each shorter row having been right-padded with empty cells
to the maximum row width), and no returned row consists only of empty cells.
Cell truthiness (`any(r)`) is modelled from the spec: a `Cell` is empty
exactly when its content is empty. -/
theorem C3_rows_equal_length (els : List (List SrcCell)) (rows : List (List Cll))
    (h : parseTableRowsEls els = Except.ok rows) :
    (∀ r ∈ rows, ∀ r' ∈ rows, r.length = r'.length) ∧
    (∀ r ∈ rows, ∃ cel ∈ r, cllTruthy cel = true) ∧
    (∀ r ∈ rows, ∃ r₀ kk, r = r₀ ++ List.replicate kk Cll.pad) := by
  rw [parseTableRowsEls] at h
  cases hp : parseCells 0 els with
  | error e => simp only [hp] at h; exact Except.noConfusion h
  | ok pels =>
    simp only [hp] at h
    obtain rfl := Except.ok.inj h
    refine ⟨?_, ?_, ?_⟩
    · intro r hr r' hr'
      have h1 := padStep_length (gridRows (buildGrid pels)) [] (by simp) r
        (List.mem_of_mem_filter hr)
      have h2 := padStep_length (gridRows (buildGrid pels)) [] (by simp) r'
        (List.mem_of_mem_filter hr')
      simp only [List.nil_append] at h1 h2
      rw [h1, h2]
    · intro r hr
      have := List.of_mem_filter hr
      rw [anyTruthy, List.any_eq_true] at this
      obtain ⟨cel, hc1, hc2⟩ := this
      exact ⟨cel, hc1, hc2⟩
    · intro r hr
      rcases padStep_shape (gridRows (buildGrid pels)) [] r
          (List.mem_of_mem_filter hr) with h' | ⟨r₀, hr₀, kk, hkk⟩
      · simp at h'
      · exact ⟨r₀, kk, hkk⟩

/-- Witness for C3 on a ragged two-row table: the short first row is padded
with one empty cell and both returned rows have length 2; both rows contain a
nonempty cell. -/
theorem C3_rows_equal_length_witness :
    (∀ r ∈ [[Cll.src 0 0 ['a'], Cll.pad], [Cll.src 1 0 ['b'], Cll.src 1 1 ['c']]],
      ∀ r' ∈ [[Cll.src 0 0 ['a'], Cll.pad], [Cll.src 1 0 ['b'], Cll.src 1 1 ['c']]],
      r.length = r'.length) ∧
    (∀ r ∈ [[Cll.src 0 0 ['a'], Cll.pad], [Cll.src 1 0 ['b'], Cll.src 1 1 ['c']]],
      ∃ cel ∈ r, cllTruthy cel = true) ∧
    (∀ r ∈ [[Cll.src 0 0 ['a'], Cll.pad], [Cll.src 1 0 ['b'], Cll.src 1 1 ['c']]],
      ∃ r₀ kk, r = r₀ ++ List.replicate kk Cll.pad) :=
  C3_rows_equal_length
    [[⟨['a'], none, none, none⟩], [⟨['b'], none, none, none⟩, ⟨['c'], none, none, none⟩]]
    [[Cll.src 0 0 ['a'], Cll.pad], [Cll.src 1 0 ['b'], Cll.src 1 1 ['c']]] rfl

/- ## Span-free tables: parse and placement structure -/

theorem mem_range'_iff (s n m : Nat) : m ∈ List.range' s n ↔ s ≤ m ∧ m < s + n := by
  rw [List.mem_range']
  constructor
  · rintro ⟨i, hi, rfl⟩
    omega
  · rintro ⟨h1, h2⟩
    exact ⟨m - s, by omega, by omega⟩

theorem parseCellsRow_noSpan : ∀ (row : List SrcCell) (rid j : Nat),
    (∀ cell ∈ row, cell.namest = none ∧ cell.nameend = none ∧ cell.morerows = none) →
    parseCellsRow rid j row = Except.ok (noSpanRow rid j row) := by
  intro row
  induction row with
  | nil => intro rid j h; rfl
  | cons c0 rest ih =>
    intro rid j h
    obtain ⟨h1, h2, h3⟩ := h c0 (List.mem_cons_self _ _)
    simp only [parseCellsRow, h1, h2, h3, bind, Except.bind]
    rw [show colAttrVal none = Except.ok 1 from rfl,
        show moreRowsVal none = Except.ok 0 from rfl]
    rw [ih rid (j + 1) (fun x hx => h x (List.mem_cons_of_mem _ hx))]
    rfl

theorem parseCells_noSpan : ∀ (els : List (List SrcCell)) (r : Nat),
    (∀ row ∈ els, ∀ cell ∈ row, cell.namest = none ∧ cell.nameend = none ∧
      cell.morerows = none) →
    parseCells r els = Except.ok (noSpanCells r els) := by
  intro els
  induction els with
  | nil => intro r h; rfl
  | cons row rest ih =>
    intro r h
    simp only [parseCells, bind, Except.bind]
    rw [parseCellsRow_noSpan row r 0 (h row (List.mem_cons_self _ _))]
    rw [ih (r + 1) (fun x hx => h x (List.mem_cons_of_mem _ hx))]
    rfl

theorem mem_keys_seqRow : ∀ (ps : List PCell) (c0 c : Nat),
    c ∈ (seqRow c0 ps).map Prod.fst ↔ c0 ≤ c ∧ c < c0 + ps.length := by
  intro ps
  induction ps with
  | nil => intro c0 c; simp [seqRow]
  | cons p rest ih =>
    intro c0 c
    simp only [seqRow, List.map_cons, List.mem_cons, ih (c0 + 1) c, List.length_cons]
    omega

theorem alGet_seqRow_none (ps : List PCell) (c0 c : Nat)
    (h : ¬(c0 ≤ c ∧ c < c0 + ps.length)) : alGet (seqRow c0 ps) c = none := by
  rw [alGet_eq_none_iff, mem_keys_seqRow]
  exact h

theorem seqRow_append_one : ∀ (pre : List PCell) (c0 : Nat) (pc : PCell),
    seqRow c0 (pre ++ [pc]) = seqRow c0 pre ++ [(c0 + pre.length, pc.v)] := by
  intro pre
  induction pre with
  | nil => intro c0 pc; simp [seqRow]
  | cons q rest ih =>
    intro c0 pc
    have e : c0 + 1 + rest.length = c0 + (rest.length + 1) := by omega
    simp [seqRow, ih (c0 + 1) pc, e]

theorem ensureRow_present (g : Grid) (r : Nat) (w : Row') (h : alGet g r = some w) :
    ensureRow g r = g := by
  unfold ensureRow
  rw [h]

theorem ensureRow_absent (g : Grid) (r : Nat) (h : alGet g r = none) :
    ensureRow g r = g ++ [(r, ([] : Row'))] := by
  unfold ensureRow
  rw [h]

theorem alGet_append_singleton_self (g : Grid) (i : Nat) (w : Row')
    (h : alGet g i = none) : alGet (g ++ [(i, w)]) i = some w := by
  rw [alGet_append_left_none _ _ _ h]
  simp [alGet]

theorem setCell_append_fresh : ∀ (g : Grid) (i c : Nat) (v : Cll) (w : Row'),
    alGet g i = none →
    setCell (g ++ [(i, w)]) i c v = g ++ [(i, alInsert w c v)] := by
  intro g i c v w
  induction g with
  | nil => intro h; simp [setCell]
  | cons p rest ih =>
    intro h
    rw [alGet] at h
    by_cases hp : p.1 = i
    · rw [if_pos hp] at h
      exact Option.noConfusion h
    · rw [if_neg hp] at h
      have hrec := ih h
      simp only [List.cons_append, setCell, List.map_cons] at hrec ⊢
      rw [if_neg hp, hrec]

theorem placeCell_noSpan (pc : PCell) (pre : List PCell) (g : Grid) (i : Nat)
    (hcs : pc.colspan = 1) (hrs : pc.rowspan = 1) (hg : alGet g i = none) :
    placeCell i pc (g ++ [(i, seqRow 0 pre)], pre.length) =
      (g ++ [(i, seqRow 0 (pre ++ [pc]))], pre.length + 1) := by
  have hrowget : alGet (g ++ [(i, seqRow 0 pre)]) i = some (seqRow 0 pre) :=
    alGet_append_singleton_self g i _ hg
  rw [placeCell, hcs, hrs]
  simp only [placeUnits, placeDown]
  rw [ensureRow_present _ _ _ hrowget]
  have hrow : rowOf (g ++ [(i, seqRow 0 pre)]) i = seqRow 0 pre := by
    rw [rowOf, hrowget]
    rfl
  rw [hrow]
  have hfree : nextFreeRow (seqRow 0 pre) pre.length = pre.length :=
    nextFreeRow_eq _ _ (alGet_seqRow_none pre 0 pre.length (by omega))
  rw [hfree]
  rw [setCell_append_fresh g i pre.length pc.v (seqRow 0 pre) hg]
  rw [alInsert_not_mem _ _ _ (by rw [mem_keys_seqRow]; omega)]
  have hsr := seqRow_append_one pre 0 pc
  rw [show (0 : Nat) + pre.length = pre.length from by omega] at hsr
  rw [← hsr]

theorem placeCells_noSpan : ∀ (cells pre : List PCell) (g : Grid) (i : Nat),
    (∀ pc ∈ cells, pc.colspan = 1 ∧ pc.rowspan = 1) →
    alGet g i = none →
    placeCells i cells (g ++ [(i, seqRow 0 pre)], pre.length) =
      (g ++ [(i, seqRow 0 (pre ++ cells))], pre.length + cells.length) := by
  intro cells
  induction cells with
  | nil => intro pre g i hs hg; simp [placeCells]
  | cons pc rest ih =>
    intro pre g i hs hg
    obtain ⟨hcs, hrs⟩ := hs pc (List.mem_cons_self _ _)
    simp only [placeCells]
    rw [placeCell_noSpan pc pre g i hcs hrs hg]
    have hstep := ih (pre ++ [pc]) g i (fun x hx => hs x (List.mem_cons_of_mem _ hx)) hg
    rw [List.length_append, List.length_singleton] at hstep
    rw [hstep, List.append_assoc, List.singleton_append, List.length_cons]
    rw [show pre.length + 1 + rest.length = pre.length + (rest.length + 1) from by omega]

theorem rowStep_noSpan (i : Nat) (cells : List PCell) (g : Grid)
    (hs : ∀ pc ∈ cells, pc.colspan = 1 ∧ pc.rowspan = 1)
    (hne : cells ≠ []) (hg : alGet g i = none) :
    rowStep i cells g = g ++ [(i, seqRow 0 cells)] := by
  rcases cells with - | ⟨pc, rest⟩
  · exact absurd rfl hne
  obtain ⟨hcs, hrs⟩ := hs pc (List.mem_cons_self _ _)
  rw [rowStep]
  simp only [placeCells]
  have step0 : placeCell i pc (g, 0) = (g ++ [(i, seqRow 0 [pc])], 1) := by
    rw [placeCell, hcs, hrs]
    simp only [placeUnits, placeDown]
    rw [ensureRow_absent g i hg]
    have hrow : rowOf (g ++ [(i, ([] : Row'))]) i = ([] : Row') := by
      rw [rowOf, alGet_append_singleton_self g i _ hg]
      rfl
    rw [hrow]
    rw [show nextFreeRow ([] : Row') 0 = 0 from rfl]
    rw [setCell_append_fresh g i 0 pc.v ([] : Row') hg]
    rfl
  rw [step0]
  have := placeCells_noSpan rest [pc] g i (fun x hx => hs x (List.mem_cons_of_mem _ hx)) hg
  rw [show ([pc] : List PCell).length = 1 from rfl] at this
  rw [this]
  simp

theorem buildGridAux_noSpan : ∀ (pels : List (List PCell)) (i : Nat) (g : Grid),
    (∀ cells ∈ pels, (∀ pc ∈ cells, pc.colspan = 1 ∧ pc.rowspan = 1) ∧ cells ≠ []) →
    (∀ r, i ≤ r → alGet g r = none) →
    buildGridAux i pels g = g ++ seqGrid i pels := by
  intro pels
  induction pels with
  | nil => intro i g hs hg; simp [buildGridAux, seqGrid]
  | cons cells rest ih =>
    intro i g hs hg
    obtain ⟨hs0, hne0⟩ := hs cells (List.mem_cons_self _ _)
    simp only [buildGridAux]
    rw [rowStep_noSpan i cells g hs0 hne0 (hg i (Nat.le_refl i))]
    rw [ih (i + 1) _ (fun x hx => hs x (List.mem_cons_of_mem _ hx)) ?_]
    · rw [List.append_assoc]
      rfl
    · intro r hr
      rw [alGet_append_left_none _ _ _ (hg r (by omega))]
      simp [alGet, show ¬(i = r) from by omega]

/- ## Extraction of a dense sequential grid -/

theorem map_fst_seqRow : ∀ (ps : List PCell) (c0 : Nat),
    (seqRow c0 ps).map Prod.fst = List.range' c0 ps.length := by
  intro ps
  induction ps with
  | nil => intro c0; simp [seqRow, List.range']
  | cons p rest ih =>
    intro c0
    simp [seqRow, ih (c0 + 1), List.range'_succ]

theorem map_fst_seqGrid : ∀ (pels : List (List PCell)) (i : Nat),
    (seqGrid i pels).map Prod.fst = List.range' i pels.length := by
  intro pels
  induction pels with
  | nil => intro i; simp [seqGrid, List.range']
  | cons cells rest ih =>
    intro i
    simp [seqGrid, ih (i + 1), List.range'_succ]

theorem sorted_le_range' : ∀ (n s : Nat),
    List.Sorted (fun a b => a ≤ b) (List.range' s n) := by
  intro n
  induction n with
  | zero => intro s; simp [List.range']
  | succ m ih =>
    intro s
    rw [List.range'_succ, List.sorted_cons]
    constructor
    · intro b hb
      have := (mem_range'_iff (s + 1) m b).mp hb
      omega
    · exact ih (s + 1)

theorem sortedKeys_seqGrid (pels : List (List PCell)) (i : Nat) :
    sortedKeys (seqGrid i pels) = List.range' i pels.length := by
  rw [sortedKeys, map_fst_seqGrid]
  exact List.Sorted.insertionSort_eq (sorted_le_range' _ _)

theorem filterMap_seqRow : ∀ (ps : List PCell) (c0 : Nat),
    (List.range' c0 ps.length).filterMap (alGet (seqRow c0 ps)) =
      ps.map (fun pc => pc.v) := by
  intro ps
  induction ps with
  | nil => intro c0; simp [List.range']
  | cons pc rest ih =>
    intro c0
    rw [show (pc :: rest).length = rest.length + 1 from rfl, List.range'_succ]
    have h0 : alGet (seqRow c0 (pc :: rest)) c0 = some pc.v := by
      simp [seqRow, alGet]
    rw [List.filterMap_cons_some h0]
    have hcong : (List.range' (c0 + 1) rest.length).filterMap
          (alGet (seqRow c0 (pc :: rest))) =
        (List.range' (c0 + 1) rest.length).filterMap (alGet (seqRow (c0 + 1) rest)) := by
      apply List.filterMap_congr
      intro x hx
      have := (mem_range'_iff (c0 + 1) rest.length x).mp hx
      simp [seqRow, alGet, show ¬(c0 = x) from by omega]
    rw [hcong, ih (c0 + 1)]
    simp

theorem rowCells_seqRow (cells : List PCell) :
    rowCells (seqRow 0 cells) = cells.map (fun pc => pc.v) := by
  rw [rowCells, sortedKeys, map_fst_seqRow,
    List.Sorted.insertionSort_eq (sorted_le_range' _ _)]
  exact filterMap_seqRow cells 0

theorem gridRows_seqGrid : ∀ (pels : List (List PCell)) (i : Nat),
    gridRows (seqGrid i pels) = pels.map (fun cells => rowCells (seqRow 0 cells)) := by
  intro pels
  induction pels with
  | nil => intro i; simp [gridRows, sortedKeys, seqGrid]
  | cons cells rest ih =>
    intro i
    rw [gridRows, sortedKeys_seqGrid,
      show (cells :: rest).length = rest.length + 1 from rfl, List.range'_succ,
      List.map_cons]
    have hhead : rowOf (seqGrid i (cells :: rest)) i = seqRow 0 cells := by
      simp [rowOf, seqGrid, alGet]
    rw [hhead]
    have hcong : (List.range' (i + 1) rest.length).map
          (fun r => rowCells (rowOf (seqGrid i (cells :: rest)) r)) =
        (List.range' (i + 1) rest.length).map
          (fun r => rowCells (rowOf (seqGrid (i + 1) rest) r)) := by
      apply List.map_congr_left
      intro x hx
      have := (mem_range'_iff (i + 1) rest.length x).mp hx
      simp [rowOf, seqGrid, alGet, show ¬(i = x) from by omega]
    rw [hcong, List.map_cons]
    have htail := ih (i + 1)
    rw [gridRows, sortedKeys_seqGrid] at htail
    rw [htail]

theorem noSpanRow_v : ∀ (row : List SrcCell) (rid j : Nat),
    (noSpanRow rid j row).map (fun pc => pc.v) = rawRow rid j row := by
  intro row
  induction row with
  | nil => intro rid j; rfl
  | cons c0 rest ih =>
    intro rid j
    simp [noSpanRow, rawRow, ih rid (j + 1)]

theorem noSpan_layout : ∀ (els : List (List SrcCell)) (r : Nat),
    (noSpanCells r els).map (fun cells => rowCells (seqRow 0 cells)) = rawLayout r els := by
  intro els
  induction els with
  | nil => intro r; rfl
  | cons row rest ih =>
    intro r
    simp only [noSpanCells, List.map_cons, rawLayout]
    rw [rowCells_seqRow, noSpanRow_v, ih (r + 1)]

/- ## Padding and filtering are no-ops on a full rectangular layout -/

theorem maxLenOf_le : ∀ (l : List (List Cll)) (n : Nat),
    (∀ r ∈ l, r.length ≤ n) → maxLenOf l ≤ n := by
  intro l
  induction l with
  | nil => intro n h; exact Nat.zero_le n
  | cons x rest ih =>
    intro n h
    rw [maxLenOf_cons]
    exact max_le (h x (by simp)) (ih n (fun r hr => h r (by simp [hr])))

theorem maxLenOf_all (l : List (List Cll)) (n : Nat) (hne : l ≠ [])
    (h : ∀ r ∈ l, r.length = n) : maxLenOf l = n := by
  apply Nat.le_antisymm
  · exact maxLenOf_le l n (fun r hr => Nat.le_of_eq (h r hr))
  · rcases l with - | ⟨x, rest⟩
    · exact absurd rfl hne
    · have := le_maxLenOf (x :: rest) x (by simp)
      rw [h x (by simp)] at this
      exact this

theorem padStep_all_eq : ∀ (l acc : List (List Cll)) (n : Nat),
    (∀ r ∈ acc, r.length = n) → (∀ r ∈ l, r.length = n) →
    padStep acc l = acc ++ l := by
  intro l
  induction l with
  | nil => intro acc n h1 h2; simp [padStep]
  | cons x rest ih =>
    intro acc n h1 h2
    simp only [padStep]
    have hM : maxLenOf (acc ++ x :: rest) = n := by
      apply maxLenOf_all _ n (by simp)
      intro r hr
      rcases List.mem_append.mp hr with h | h
      · exact h1 r h
      · rcases List.mem_cons.mp h with h' | h'
        · rw [h']; exact h2 x (by simp)
        · exact h2 r (by simp [h'])
    rw [hM, h2 x (by simp), Nat.sub_self, List.replicate_zero, List.append_nil]
    have := ih (acc ++ [x]) n ?_ (fun r hr => h2 r (by simp [hr]))
    · rw [this]
      simp
    · intro r hr
      rcases List.mem_append.mp hr with h | h
      · exact h1 r h
      · rw [List.mem_singleton.mp h]
        exact h2 x (by simp)

theorem rawRow_length : ∀ (row : List SrcCell) (rid j : Nat),
    (rawRow rid j row).length = row.length := by
  intro row
  induction row with
  | nil => intro rid j; rfl
  | cons c0 rest ih => intro rid j; simp [rawRow, ih rid (j + 1)]

theorem mem_rawLayout : ∀ (els : List (List SrcCell)) (r₀ : Nat) (r : List Cll),
    r ∈ rawLayout r₀ els → ∃ rid row, row ∈ els ∧ r = rawRow rid 0 row := by
  intro els
  induction els with
  | nil => intro r₀ r h; simp [rawLayout] at h
  | cons row rest ih =>
    intro r₀ r h
    rcases List.mem_cons.mp h with h' | h'
    · exact ⟨r₀, row, by simp, h'⟩
    · obtain ⟨rid, row', hm, he⟩ := ih (r₀ + 1) r h'
      exact ⟨rid, row', by simp [hm], he⟩

theorem anyTruthy_rawRow : ∀ (row : List SrcCell) (rid j : Nat),
    (∃ cell ∈ row, cell.text ≠ []) → anyTruthy (rawRow rid j row) = true := by
  intro row
  induction row with
  | nil =>
    intro rid j h
    obtain ⟨c, hc, -⟩ := h
    simp at hc
  | cons c0 rest ih =>
    intro rid j h
    obtain ⟨c, hc, hct⟩ := h
    simp only [rawRow, anyTruthy, List.any_cons, Bool.or_eq_true]
    rcases List.mem_cons.mp hc with h' | hmem
    · left
      rw [h'] at hct
      cases ht : c0.text with
      | nil => exact absurd ht hct
      | cons a l => simp [cllTruthy, ht]
    · right
      have := ih rid (j + 1) ⟨c, hmem, hct⟩
      rw [anyTruthy] at this
      exact this

theorem noSpanRow_prop : ∀ (row : List SrcCell) (rid j : Nat),
    ∀ pc ∈ noSpanRow rid j row, pc.colspan = 1 ∧ pc.rowspan = 1 := by
  intro row
  induction row with
  | nil => intro rid j pc h; simp [noSpanRow] at h
  | cons c0 rest ih =>
    intro rid j pc h
    rcases List.mem_cons.mp h with h' | h'
    · rw [h']; exact ⟨rfl, rfl⟩
    · exact ih rid (j + 1) pc h'

theorem mem_noSpanCells : ∀ (els : List (List SrcCell)) (r₀ : Nat)
    (cells : List PCell), cells ∈ noSpanCells r₀ els →
    ∃ rid row, row ∈ els ∧ cells = noSpanRow rid 0 row := by
  intro els
  induction els with
  | nil => intro r₀ cells h; simp [noSpanCells] at h
  | cons row rest ih =>
    intro r₀ cells h
    rcases List.mem_cons.mp h with h' | h'
    · exact ⟨r₀, row, by simp, h'⟩
    · obtain ⟨rid, row', hm, he⟩ := ih (r₀ + 1) cells h'
      exact ⟨rid, row', by simp [hm], he⟩

theorem noSpanRow_ne_nil : ∀ (row : List SrcCell) (rid j : Nat), row ≠ [] →
    noSpanRow rid j row ≠ [] := by
  intro row rid j h
  rcases row with - | ⟨c, rest⟩
  · exact absurd rfl h
  · simp [noSpanRow]

/- ## C4 -/

/-- C4 counterexample: a span-free but ragged table (first row one cell,
second row two) does not reproduce the raw layout exactly — the first output
row is padded with an empty `Cell('')`, so padding cells are added. -/
theorem C4_noSpan_counterexample :
    parseTableRowsEls [[⟨['a'], none, none, none⟩],
        [⟨['b'], none, none, none⟩, ⟨['c'], none, none, none⟩]] =
      Except.ok [[Cll.src 0 0 ['a'], Cll.pad],
        [Cll.src 1 0 ['b'], Cll.src 1 1 ['c']]] ∧
    Cll.pad ∈ [Cll.src 0 0 ['a'], Cll.pad] := by
  exact ⟨rfl, by decide⟩

/-- C4 amended: for every table in which no cell carries span attributes, in
which all rows have the same number of cells, and in which every row has at
least one cell with nonempty converted content, `_parse_table_rows` returns
exactly the raw row/cell layout: source cell `k` of physical row `r` at
output position `(r, k)`, with no padding cells added. -/
theorem C4_noSpan_equals_layout (els : List (List SrcCell)) (n : Nat)
    (hattr : ∀ row ∈ els, ∀ cell ∈ row, cell.namest = none ∧
      cell.nameend = none ∧ cell.morerows = none)
    (hrect : ∀ row ∈ els, row.length = n)
    (hfull : ∀ row ∈ els, ∃ cell ∈ row, cell.text ≠ []) :
    parseTableRowsEls els = Except.ok (rawLayout 0 els) := by
  rw [parseTableRowsEls]
  rw [parseCells_noSpan els 0 hattr]
  show Except.ok (List.filter anyTruthy (padAll (gridRows (buildGrid (noSpanCells 0 els))))) =
    Except.ok (rawLayout 0 els)
  have hbg : buildGrid (noSpanCells 0 els) = seqGrid 0 (noSpanCells 0 els) := by
    rw [buildGrid]
    have := buildGridAux_noSpan (noSpanCells 0 els) 0 [] ?_ (fun r _ => rfl)
    · simpa using this
    · intro cells hc
      obtain ⟨rid, row, hrow, rfl⟩ := mem_noSpanCells els 0 cells hc
      refine ⟨noSpanRow_prop row rid 0, noSpanRow_ne_nil row rid 0 ?_⟩
      obtain ⟨cell, hcell, -⟩ := hfull row hrow
      intro hnil
      rw [hnil] at hcell
      simp at hcell
  rw [hbg, gridRows_seqGrid, noSpan_layout]
  have hlen : ∀ r ∈ rawLayout 0 els, r.length = n := by
    intro r hr
    obtain ⟨rid, row, hrow, rfl⟩ := mem_rawLayout els 0 r hr
    rw [rawRow_length]
    exact hrect row hrow
  rw [padAll, padStep_all_eq _ [] n (by simp) hlen, List.nil_append]
  rw [List.filter_eq_self.mpr ?_]
  · intro r hr
    obtain ⟨rid, row, hrow, rfl⟩ := mem_rawLayout els 0 r hr
    exact anyTruthy_rawRow row rid 0 (hfull row hrow)

/-- Witness for C4 on a concrete span-free 2×2 table with nonempty cells. -/
theorem C4_noSpan_equals_layout_witness :
    parseTableRowsEls [[⟨['a'], none, none, none⟩, ⟨['b'], none, none, none⟩],
        [⟨['c'], none, none, none⟩, ⟨['d'], none, none, none⟩]] =
      Except.ok (rawLayout 0 [[⟨['a'], none, none, none⟩, ⟨['b'], none, none, none⟩],
        [⟨['c'], none, none, none⟩, ⟨['d'], none, none, none⟩]]) :=
  C4_noSpan_equals_layout
    [[⟨['a'], none, none, none⟩, ⟨['b'], none, none, none⟩],
     [⟨['c'], none, none, none⟩, ⟨['d'], none, none, none⟩]] 2
    (by decide) (by decide) (by decide)
